import Mathlib

/-!
Verification of the w3g-parser repository (Warcraft III replay parser).

This file gives a shallow embedding of the parsing pipeline
(`pkg/w3g/*.go` plus the header/chat decoders) over byte lists
(`List Nat`, each entry one byte), and proves or refutes the frozen
claims about it.

Conventions of the embedding:
* Go byte slices become `List Nat`; a Go `(data, offset)` cursor pair
  becomes the suffix `data.drop offset`, and "the decoder returns the
  new offset" becomes "the decoder returns the remaining suffix" (or
  the number of consumed bytes).
* Machine integers are `Nat` with an explicit `% 2^32` where Go's
  `uint32` arithmetic can overflow (the game clock).
* Loops whose cursor strictly advances are written with an explicit
  fuel argument that is initialised with a bound that the loop can
  never exhaust (the remaining length); this keeps every definition
  structurally recursive and kernel-evaluable.
* Go maps with string values become total functions `Nat → String`
  whose default is `""` (the Go zero value), updated functionally.
* Go's `float64` APM field is modelled as `ℚ` (exact arithmetic).
* The per-action `Data map[string]interface{}` attribute map of
  `GameAction` (which holds, among others, IEEE-754 floats) is not
  modelled: no claim depends on any of its entries, only on the
  opcode, the stamped player/timestamp and the cursor movement.
-/


/-- Little-endian 16-bit read at index `i` (Go `binary.LittleEndian.Uint16`).
Out-of-range bytes read as 0; every use below is guarded by the same
length checks as the Go source. -/
def u16At (l : List Nat) (i : Nat) : Nat :=
  l.getD i 0 + 256 * l.getD (i + 1) 0

/-- Little-endian 32-bit read at index `i` (Go `binary.LittleEndian.Uint32`). -/
def u32At (l : List Nat) (i : Nat) : Nat :=
  l.getD i 0 + 256 * l.getD (i + 1) 0 + 65536 * l.getD (i + 2) 0
    + 16777216 * l.getD (i + 3) 0

/-- Go `string(bytes)` conversion.  Each byte becomes one character
(the claims only exercise ASCII content, where this agrees with Go). -/
def asString (l : List Nat) : String :=
  String.mk (l.map Char.ofNat)

/-- Lowercase hex digit (for Go's `%02x` formatting of unknown opcodes):
digits 0-9 map to ASCII 48-57, 10-15 to the letters at 97-102; out of
range (never hit by `hex2`) falls back to the digit 0. -/
def hexDigit (n : Nat) : Char :=
  if n < 10 then Char.ofNat (48 + n)
  else if n < 16 then Char.ofNat (87 + n)
  else Char.ofNat 48

/-- Go `fmt.Sprintf("%02x", b)` for a byte. -/
def hex2 (n : Nat) : String :=
  String.mk [hexDigit (n / 16 % 16), hexDigit (n % 16)]

/-- Error taxonomy of the Go package (`errors.go`): the error kind plus
the message / cursor offset it carries. -/
inductive W3GError where
  | invalidHeader (msg : String)
  | truncated (msg : String) (offset : Nat)
  | decompression (msg : String) (offset : Nat)
  deriving DecidableEq

/-- `ReplayHeader` (w3g.go).  `RawHeader`/`Magic` raw copies are omitted. -/
structure ReplayHeader where
  HeaderSize : Nat
  CompressedSize : Nat
  HeaderVersion : Nat
  DecompressedSize : Nat
  NumCompressedBlocks : Nat
  GameIdentifier : String
  Version : Nat
  BuildNumber : Nat
  Flags : Nat
  DurationMs : Nat
  CRC32 : Nat
  deriving DecidableEq

/-- `ReplayHeader.IsReforged` (w3g.go): version ≥ 29 or identifier `PX3W`. -/
def ReplayHeader.IsReforged (h : ReplayHeader) : Bool :=
  29 ≤ h.Version || h.GameIdentifier = "PX3W"

/-- `PlayerInfo` (w3g.go).  Races, slot statuses and leave results keep
their Go byte encodings (`RaceUnknown = 0xFF`, `SlotUsed = 0x02`, ...);
`APM` is `float64` in Go, modelled exactly as `ℚ`. -/
structure PlayerInfo where
  ID : Nat
  Name : String
  Race : Nat
  Team : Nat
  Color : Nat
  Handicap : Nat
  IsHost : Bool
  IsComputer : Bool
  IsObserver : Bool
  SlotStatus : Nat
  RuntimeMs : Nat
  ActionCount : Nat
  APM : ℚ
  LeaveResult : Option Nat
  LeaveTimeMs : Option Nat
  deriving DecidableEq

/-- `GameSettings` (w3g.go). -/
structure GameSettings where
  Speed : Nat
  Visibility : Nat
  Observers : Nat
  TeamsTogether : Bool
  LockTeams : Bool
  FullSharedControl : Bool
  RandomHero : Bool
  RandomRaces : Bool
  Referees : Bool
  MapChecksum : List Nat
  deriving DecidableEq

/-- `ChatMessage` (w3g.go). -/
structure ChatMessage where
  TimestampMs : Nat
  PlayerID : Nat
  PlayerName : String
  Message : String
  Mode : Nat
  IsStartup : Bool
  deriving DecidableEq

/-- `GameAction` (w3g.go); see the file comment about the omitted
attribute map. -/
structure GameAction where
  TimestampMs : Nat
  PlayerID : Nat
  ActionType : Nat
  ActionName : String
  Payload : List Nat
  deriving DecidableEq

/-- `SlotRecord` (w3g.go). -/
structure SlotRecord where
  PlayerID : Nat
  DownloadPercent : Nat
  SlotStatus : Nat
  IsComputer : Bool
  Team : Nat
  Color : Nat
  RaceFlags : Nat
  AIStrength : Nat
  Handicap : Nat
  deriving DecidableEq

/-- `W3GReplay` (w3g.go). -/
structure W3GReplay where
  Header : ReplayHeader
  GameName : String
  MapName : String
  MapPath : String
  HostName : String
  Settings : GameSettings
  Players : List PlayerInfo
  ChatMessages : List ChatMessage
  Actions : List GameAction
  RawDecompressed : List Nat
  deriving DecidableEq

/-- `MagicString` (constants.go): `"Warcraft III recorded game\x1a\x00"`. -/
def magicBytes : List Nat :=
  [87, 97, 114, 99, 114, 97, 102, 116, 32, 73, 73, 73, 32,
   114, 101, 99, 111, 114, 100, 101, 100, 32, 103, 97, 109, 101, 26, 0]

/-- `RaceFromFlags` (w3g.go): lowest set bit among the race flag bits. -/
def raceFromFlags (flags : Nat) : Nat :=
  if flags &&& 0x01 ≠ 0 then 0x01
  else if flags &&& 0x02 ≠ 0 then 0x02
  else if flags &&& 0x04 ≠ 0 then 0x04
  else if flags &&& 0x08 ≠ 0 then 0x08
  else if flags &&& 0x20 ≠ 0 then 0x20
  else if flags &&& 0x40 ≠ 0 then 0x40
  else 0xFF


/-! ## Encoded-string decoder (encoded.go) -/

/-- Inner 7-byte window of `decodeEncodedString` (encoded.go).
`i` counts the bytes still to process in the current window (7 down
to 0), so the byte handled at `i` is the window's byte `7 - i` and its
control bit is bit `(7 - i) + 1 = 8 - i`, matching the source's
`control & (1 << (bit + 1))`.  Returns the decoded bytes, the
remaining input and whether a literal NUL terminated the string
(the source's early `return` that appends the 0). -/
def decodeEnc7 (control : Nat) : Nat → List Nat → List Nat × List Nat × Bool
  | 0, l => ([], l, false)
  | _ + 1, [] => ([], [], false)
  | i + 1, b :: t =>
    if b = 0 then ([0], t, true)
    else
      let d := if control &&& (1 <<< (8 - (i + 1))) = 0 then b - 1 else b
      let r := decodeEnc7 control i t
      (d :: r.1, r.2.1, r.2.2)

/-- Fuel-driven outer loop of `decodeEncodedString` (encoded.go): read a
control byte (0 terminates), process a 7-byte window, repeat.  The fuel
is initialised with the input length, which the loop (consuming at
least the control byte per iteration) can never exhaust. -/
def decodeEncAux : Nat → List Nat → List Nat × List Nat
  | 0, l => ([], l)
  | _ + 1, [] => ([], [])
  | fuel + 1, c :: t =>
    if c = 0 then ([], t)
    else
      let w := decodeEnc7 c 7 t
      if w.2.2 then (w.1, w.2.1)
      else
        let r := decodeEncAux fuel w.2.1
        (w.1 ++ r.1, r.2)

/-- `decodeEncodedString` (encoded.go), suffix form: returns the decoded
bytes and the remaining input after the consumed encoded run. -/
def decodeEncodedString (l : List Nat) : List Nat × List Nat :=
  decodeEncAux l.length l

/-- Last path component (the scan for `/` or `\` in `extractMapName`,
encoded.go): everything after the last separator byte (47 or 92). -/
def afterLastSep (l : List Nat) : List Nat :=
  (l.reverse.takeWhile (fun b => b ≠ 47 ∧ b ≠ 92)).reverse

/-- `extractMapName` (encoded.go), on bytes: strip the directory part,
then a trailing `.w3x`/`.w3m`/`.W3X`/`.W3M` when the name is longer
than the extension. -/
def extractMapName (mapPath : List Nat) : List Nat :=
  let name := afterLastSep mapPath
  if 4 < name.length then
    let ext := name.drop (name.length - 4)
    if ext = [46, 119, 51, 120] ∨ ext = [46, 119, 51, 109] ∨
        ext = [46, 87, 51, 88] ∨ ext = [46, 87, 51, 77] then
      name.take (name.length - 4)
    else name
  else name

/-- `parseEncodedSettings` (encoded.go): game options from the first 13
decoded bytes, then optional NUL, then the null-terminated map path. -/
def parseEncodedSettings (d : List Nat) : GameSettings × String × String :=
  if d.length < 13 then
    ({ Speed := 2, Visibility := 0, Observers := 0, TeamsTogether := false,
       LockTeams := false, FullSharedControl := false, RandomHero := false,
       RandomRaces := false, Referees := false, MapChecksum := [] }, "", "")
  else
    let b1 := d.getD 1 0
    let b3 := d.getD 3 0
    let settings : GameSettings :=
      { Speed := d.getD 0 0 &&& 0x03
        Visibility := b1 &&& 0x0F
        Observers := (b1 >>> 4) &&& 0x03
        TeamsTogether := b1 &&& 0x40 ≠ 0
        LockTeams := d.getD 2 0 &&& 0x06 ≠ 0
        FullSharedControl := b3 &&& 0x01 ≠ 0
        RandomHero := b3 &&& 0x02 ≠ 0
        RandomRaces := b3 &&& 0x04 ≠ 0
        Referees := b3 &&& 0x40 ≠ 0
        MapChecksum := (d.drop 9).take 4 }
    let rest := d.drop 13
    let rest := if rest.getD 0 1 = 0 then rest.drop 1 else rest
    let path := rest.takeWhile (· ≠ 0)
    if path.length > 0 then
      (settings, asString path, asString (extractMapName path))
    else
      (settings, "", "")

/-! ## Player and slot records (players.go) -/

/-- `parsePlayerRecord` (players.go), suffix form.  On a record-ID
mismatch the Go code backtracks (`return nil, offset - 1`), i.e. the
caller's cursor is unchanged: here that is returning the input list.
The two early-return sites build a `PlayerInfo` from Go zero values
(`Race = 0`, not `RaceUnknown`), exactly as the source does. -/
def parsePlayerRecord (l : List Nat) (isHost : Bool) :
    Option PlayerInfo × List Nat :=
  match l with
  | [] => (none, [])
  | recordID :: t =>
    let expectedID := if isHost then 0x00 else 0x16
    if recordID ≠ expectedID then (none, l)
    else
      match t with
      | [] => (none, [])
      | playerID :: t2 =>
        let name := t2.takeWhile (· ≠ 0)
        let rest := (t2.dropWhile (· ≠ 0)).drop 1
        match rest with
        | [] =>
          (some { ID := playerID, Name := asString name, Race := 0,
                  Team := 0, Color := 0, Handicap := 100, IsHost := isHost,
                  IsComputer := false, IsObserver := false, SlotStatus := 0,
                  RuntimeMs := 0, ActionCount := 0, APM := 0,
                  LeaveResult := none, LeaveTimeMs := none }, [])
        | extraSize :: t4 =>
          let rr : Nat × Nat × List Nat :=
            if extraSize = 0x01 then (0, 0xFF, t4.drop 1)
            else if extraSize = 0x08 then
              if 8 ≤ t4.length then
                (u32At t4 0, raceFromFlags (u32At t4 4 % 256), t4.drop 8)
              else (0, 0xFF, t4)
            else (0, 0xFF, t4.drop extraSize)
          (some { ID := playerID, Name := asString name, Race := rr.2.1,
                  Team := 0, Color := 0, Handicap := 100, IsHost := isHost,
                  IsComputer := false, IsObserver := false, SlotStatus := 0,
                  RuntimeMs := rr.1, ActionCount := 0, APM := 0,
                  LeaveResult := none, LeaveTimeMs := none }, rr.2.2)

/-- `parseSlotRecord` (players.go): 7/8/9 bytes depending on version. -/
def parseSlotRecord (l : List Nat) (version : Nat) :
    Option SlotRecord × List Nat :=
  let slotSize := if version < 3 then 7 else if version < 7 then 8 else 9
  if l.length < slotSize then (none, l)
  else
    (some { PlayerID := l.getD 0 0
            DownloadPercent := l.getD 1 0
            SlotStatus := l.getD 2 0
            IsComputer := l.getD 3 0 = 0x01
            Team := l.getD 4 0
            Color := l.getD 5 0
            RaceFlags := l.getD 6 0
            AIStrength := if 8 ≤ slotSize then l.getD 7 0 else 0
            Handicap := if 9 ≤ slotSize then l.getD 8 0 else 100 },
     l.drop slotSize)

/-- The counted slot-record loop of `parseGameStartRecord` (players.go). -/
def parseSlots (version : Nat) : Nat → List Nat → List SlotRecord × List Nat
  | 0, l => ([], l)
  | n + 1, l =>
    let sr := parseSlotRecord l version
    let r := parseSlots version n sr.2
    match sr.1 with
    | some s => (s :: r.1, r.2)
    | none => (r.1, r.2)

/-- `parseGameStartRecord` (players.go): opcode 0x19, u16 byte count,
u8 slot count, slot records, u32 random seed, u8 select mode, u8 start
spot count.  Returns slots, seed, select mode and the remaining input. -/
def parseGameStartRecord (l : List Nat) (version : Nat) :
    List SlotRecord × Nat × Nat × List Nat :=
  match l with
  | [] => ([], 0, 0, [])
  | b :: t =>
    if b ≠ 0x19 then ([], 0, 0, l)
    else if t.length < 2 then ([], 0, 0, t)
    else
      match t.drop 2 with
      | [] => ([], 0, 0, [])
      | numSlots :: t3 =>
        let sl := parseSlots version numSlots t3
        let seedRest : Nat × List Nat :=
          if 4 ≤ sl.2.length then (u32At sl.2 0, sl.2.drop 4) else (0, sl.2)
        let modeRest : Nat × List Nat :=
          match seedRest.2 with
          | [] => (0, [])
          | m :: t5 => (m, t5)
        (sl.1, seedRest.1, modeRest.1, modeRest.2.drop 1)

/-- Update the first list entry with the given player ID (the Go
pattern `for _, player := range players { if player.ID == id { ...;
break } }` mutating through the slice's pointers). -/
def updateFirst (l : List PlayerInfo) (pid : Nat)
    (f : PlayerInfo → PlayerInfo) : List PlayerInfo :=
  match l with
  | [] => []
  | p :: t => if p.ID = pid then f p :: t else p :: updateFirst t pid f

/-- Update the last list entry with the given player ID.  This models
`applySlotInfoToPlayers`'s `playerMap`: the map is filled by iterating
the list, so on duplicate IDs the pointer stored is the last
occurrence's, and mutations through it land on that element. -/
def updateLast (l : List PlayerInfo) (pid : Nat)
    (f : PlayerInfo → PlayerInfo) : List PlayerInfo :=
  (updateFirst l.reverse pid f).reverse

/-- `applySlotInfoToPlayers` (players.go).  The Go function receives the
`players` slice header by value; its `players = append(players,
computer)` for computer slots therefore only grows a local copy and is
invisible to the caller — the caller-visible effect, modelled here, is
only the in-place mutation of existing entries through their pointers.
Used non-computer slots stamp team/colour/handicap/status on the mapped
player, set the race from the slot flags when it is still
`RaceUnknown` (0xFF), and mark observers (team 12 classic / 24
Reforged). -/
def applySlotInfoToPlayers (players : List PlayerInfo)
    (slots : List SlotRecord) (version : Nat) : List PlayerInfo :=
  let observerTeam := if 29 ≤ version then 24 else 12
  slots.foldl (fun ps slot =>
    if slot.SlotStatus ≠ 0x02 then ps
    else if slot.IsComputer then ps
    else
      updateLast ps slot.PlayerID (fun p =>
        let p1 := { p with Team := slot.Team, Color := slot.Color,
                           Handicap := slot.Handicap,
                           SlotStatus := slot.SlotStatus }
        let p2 := if p1.Race = 0xFF
          then { p1 with Race := raceFromFlags slot.RaceFlags } else p1
        if p2.Team = observerTeam then { p2 with IsObserver := true }
        else p2)) players

/-- `isValidGameStartRecord` (players.go): 0x19 marker, u16 byte count
in 10..500 and slot count in 2..24. -/
def isValidGameStartRecord (l : List Nat) : Bool :=
  if l.length < 4 then false
  else if l.getD 0 0 ≠ 0x19 then false
  else
    let numBytes := u16At l 1
    if numBytes < 10 ∨ 500 < numBytes then false
    else
      let numSlots := l.getD 3 0
      2 ≤ numSlots ∧ numSlots ≤ 24

/-- The forward search for a valid game-start record (parser.go).  The
Go loop scans while `searchOffset < len(data) - 4` for a `0x19` byte
whose record validates, and afterwards accepts the stop position iff it
still validates; the suffix at the first accepted position is returned. -/
def findValidStart : List Nat → Option (List Nat)
  | [] => none
  | b :: t =>
    if (b :: t).length ≤ 4 then
      if isValidGameStartRecord (b :: t) then some (b :: t) else none
    else if b = 0x19 ∧ isValidGameStartRecord (b :: t) then some (b :: t)
    else findValidStart t

/-! ## Chat decoder (the `parseChatMessage` source file) -/

/-- `parseChatMessage`, message part: sender, u16 length (unused by the
source), flags byte; mode is read only for flags 0x20; any other flags
value falls through with mode 0 and no startup mark; then the
null-terminated body.  Returns `none` exactly when fewer than 4 bytes
remain (the source's only nil return). -/
def parseChatMessage (l : List Nat) (playerNames : Nat → String) :
    Option ChatMessage :=
  if l.length < 4 then none
  else
    let playerID := l.getD 0 0
    let flags := l.getD 3 0
    let afterFlags := l.drop 4
    let modeStartup : Nat × Bool × List Nat :=
      if flags = 0x10 then (0, true, afterFlags)
      else if flags = 0x20 then
        if 4 ≤ afterFlags.length then (u32At afterFlags 0, false, afterFlags.drop 4)
        else (0, false, afterFlags)
      else (0, false, afterFlags)
    let message := modeStartup.2.2.takeWhile (· ≠ 0)
    let resolved := playerNames playerID
    let playerName := if resolved = "" then "Player " ++ toString playerID
      else resolved
    some { TimestampMs := 0, PlayerID := playerID, PlayerName := playerName,
           Message := asString message, Mode := modeStartup.1,
           IsStartup := modeStartup.2.1 }

/-- Cursor movement of `parseChatMessage`: 4 header bytes, the optional
u32 mode, the body and its skipped terminator; 0 when fewer than 4
bytes remain (the source then returns the cursor unchanged). -/
def chatConsumed (l : List Nat) : Nat :=
  if l.length < 4 then 0
  else
    let flags := l.getD 3 0
    let afterFlags := l.drop 4
    let modeSkip := if flags = 0x20 ∧ 4 ≤ afterFlags.length then 4 else 0
    let body := (afterFlags.drop modeSkip).takeWhile (· ≠ 0)
    4 + modeSkip + body.length + 1

/-! ## Action decoder (actions.go) -/

/-- `ActionNames` (constants.go). -/
def actionNames (b : Nat) : Option String :=
  match b with
  | 0x01 => some "pause"
  | 0x02 => some "resume"
  | 0x03 => some "set_speed"
  | 0x04 => some "increase_speed"
  | 0x05 => some "decrease_speed"
  | 0x06 => some "save_game"
  | 0x07 => some "save_finished"
  | 0x10 => some "ability"
  | 0x11 => some "ability_position"
  | 0x12 => some "ability_object"
  | 0x13 => some "drop_item"
  | 0x14 => some "ability_two_positions"
  | 0x16 => some "select_units"
  | 0x17 => some "assign_group"
  | 0x18 => some "select_group"
  | 0x19 => some "select_subgroup"
  | 0x1A => some "pre_subselection"
  | 0x1B => some "sync_selection"
  | 0x1C => some "select_item"
  | 0x1D => some "cancel_revival"
  | 0x1E => some "remove_from_queue"
  | 0x50 => some "ally_options"
  | 0x51 => some "transfer_resources"
  | 0x60 => some "trigger_command"
  | 0x61 => some "escape"
  | 0x62 => some "scenario_trigger"
  | 0x66 => some "hero_skill_menu"
  | 0x67 => some "building_menu"
  | 0x68 => some "minimap_ping"
  | 0x69 => some "continue_game_b"
  | 0x6A => some "continue_game_a"
  | 0x75 => some "unknown_75"
  | _ => none

/-- The `ActionNames[actionID]` lookup with the `unknown_%02x` default
(parseAction, actions.go). -/
def actionNameFor (b : Nat) : String :=
  match actionNames b with
  | some n => n
  | none => "unknown_" ++ hex2 b

/-- The counted object-ID loop of the selection opcodes 0x16/0x17
(actions.go): per listed unit, consume 8 bytes while 8 remain. -/
def selLoop : Nat → List Nat → Nat
  | 0, _ => 0
  | n + 1, l => if 8 ≤ l.length then 8 + selLoop n (l.drop 8) else 0

/-- `parseAction` (actions.go) after the opcode byte `b` has been read:
returns the action (or `none` for an undecodable opcode, the source's
`return nil`) and the number of payload bytes consumed after the
opcode.  All length guards mirror the source's `offset+… <= len(data)`
checks; unconditional `offset += …` advances are unconditional here
too (list `drop`/`take` saturate where the Go slice expression would
run past the written length). -/
def parseActionBody (version : Nat) (b : Nat) (t : List Nat) :
    Option GameAction × Nat :=
  let mk : String → Nat → Option GameAction × Nat := fun name extra =>
    (some { TimestampMs := 0, PlayerID := 0, ActionType := b,
            ActionName := name, Payload := b :: t.take extra }, extra)
  let flagsSize := if version < 13 then 1 else 2
  match b with
  | 0x01 => mk (actionNameFor b) 0
  | 0x02 => mk (actionNameFor b) 0
  | 0x03 => mk (actionNameFor b) (if 1 ≤ t.length then 1 else 0)
  | 0x04 => mk (actionNameFor b) 0
  | 0x05 => mk (actionNameFor b) 0
  | 0x06 => mk (actionNameFor b) ((t.takeWhile (· ≠ 0)).length + 1)
  | 0x07 => mk (actionNameFor b) 4
  | 0x10 =>
    let actionSize := if version < 13 then 13 else 14
    mk (actionNameFor b) (if actionSize - 1 ≤ t.length then actionSize - 1 else 0)
  | 0x11 =>
    let actionSize := if version < 13 then 21 else 22
    mk (actionNameFor b) (if actionSize - 1 ≤ t.length then flagsSize + 20 else 0)
  | 0x12 =>
    let actionSize := if version < 13 then 25 else 26
    mk (actionNameFor b)
      (if actionSize - 1 ≤ t.length then
        let base := flagsSize + 20
        let e1 := if base + 4 ≤ t.length then base + 4 else base
        if e1 + 4 ≤ t.length then e1 + 4 else e1
      else 0)
  | 0x13 => mk (actionNameFor b) ((if version < 13 then 37 else 38) - 1)
  | 0x14 => mk (actionNameFor b) ((if version < 13 then 42 else 43) - 1)
  | 0x16 =>
    mk (actionNameFor b)
      (if 3 ≤ t.length then 3 + selLoop (u16At t 1) (t.drop 3) else 0)
  | 0x17 =>
    mk (actionNameFor b)
      (if 3 ≤ t.length then 3 + selLoop (u16At t 1) (t.drop 3) else 0)
  | 0x18 => mk (actionNameFor b) (if 2 ≤ t.length then 2 else 0)
  | 0x19 => mk (actionNameFor b) (if 14 ≤ version then 12 else 1)
  | 0x1A => mk (actionNameFor b) 0
  | 0x1B => mk (actionNameFor b) 9
  | 0x1C => mk (actionNameFor b) 9
  | 0x1D => mk (actionNameFor b) 8
  | 0x1E => mk (actionNameFor b) (if 5 ≤ t.length then 5 else 0)
  | 0x50 => mk (actionNameFor b) (if 5 ≤ t.length then 5 else 0)
  | 0x51 => mk (actionNameFor b) (if 9 ≤ t.length then 9 else 0)
  | 0x60 => mk (actionNameFor b) (8 + ((t.drop 8).takeWhile (· ≠ 0)).length + 1)
  | 0x61 => mk (actionNameFor b) 0
  | 0x62 => mk (actionNameFor b) 12
  | 0x66 => mk (actionNameFor b) 0
  | 0x67 => mk (actionNameFor b) 0
  | 0x68 => mk (actionNameFor b) (if 12 ≤ t.length then 12 else 0)
  | 0x69 => mk (actionNameFor b) 16
  | 0x6A => mk (actionNameFor b) 16
  | 0x75 => mk (actionNameFor b) 1
  | _ =>
    if 0x20 ≤ b ∧ b ≤ 0x32 then
      mk "cheat" (if 5 ≤ t.length then 5 else 0)
    else (none, 0)

/-- Inner per-frame action loop of `parseCommandData` (actions.go):
decode actions while the cursor is short of the declared frame end
(`rem` bytes away); an undecodable action stops the frame.  Fuel is
initialised to `rem` (each iteration consumes at least the opcode). -/
def actsAux (version : Nat) : Nat → Nat → List Nat → List GameAction
  | 0, _, _ => []
  | fuel + 1, rem, l =>
    if rem = 0 then []
    else
      match l with
      | [] => []
      | b :: t =>
        match parseActionBody version b t with
        | (none, _) => []
        | (some a, extra) =>
          a :: actsAux version fuel (rem - (1 + extra)) (t.drop extra)

/-- Outer frame loop of `parseCommandData` (actions.go): while inside
the declared command-data length, read `u8 player · u16 block-length`,
decode that frame's actions (stamping the player ID) and jump to the
frame end.  The frame-header guard is against the whole remaining
input, as in the source (`offset+3 > len(data)`). -/
def cmdAux (version : Nat) : Nat → Nat → List Nat → List (Nat × GameAction)
  | 0, _, _ => []
  | fuel + 1, n, l =>
    if n = 0 then []
    else if l.length < 3 then []
    else
      match l with
      | pid :: a :: a2 :: t =>
        let alen := a + 256 * a2
        let acts := actsAux version alen alen t
        acts.map (fun ac => (pid, { ac with PlayerID := pid }))
          ++ cmdAux version fuel (n - (3 + alen)) (t.drop alen)
      | _ => []

/-- `parseCommandData` (actions.go): `length` bytes of command frames
starting at `l` (which extends to the end of the decompressed blob, so
inner length guards can look past the declared length, as in Go). -/
def parseCommandData (l : List Nat) (length : Nat) (version : Nat) :
    List (Nat × GameAction) :=
  cmdAux version length length l

/-! ## Game-data walker (parser.go, `parseGameData`) -/

/-- State of the event-stream loop of `parseGameData` (parser.go):
the u32 game clock and the accumulated players, chat and actions. -/
structure WalkState where
  clock : Nat
  players : List PlayerInfo
  chat : List ChatMessage
  actions : List GameAction
  deriving DecidableEq

/-- Bytes consumed after the one-byte block ID, per event kind
(parser.go's `switch blockID`).  This is a function of the bytes alone;
`walkStep` below applies the matching state change.  An unknown block
ID consumes nothing further (in the source both the strict and the
non-strict arm merely leave the `switch`: `break` inside a Go `switch`
does not terminate the outer loop, so strict mode never aborts). -/
def stepConsume (b : Nat) (rest : List Nat) : Nat :=
  if b = 0x17 then (if 13 ≤ rest.length then 13 else 0)
  else if b = 0x1A ∨ b = 0x1B ∨ b = 0x1C then 4
  else if b = 0x1E ∨ b = 0x1F then
    (if 4 ≤ rest.length then
      (let numBytes := u16At rest 0
       if 2 < numBytes then 4 + (numBytes - 2) else 4)
     else 0)
  else if b = 0x20 then chatConsumed rest
  else if b = 0x22 then
    (match rest with
     | [] => 0
     | len :: _ => 1 + len)
  else if b = 0x2F then 8
  else if b = 0x23 then
    (match rest with
     | [] => 0
     | len :: _ => 1 + len)
  else 0

/-- State change of one event block (parser.go's `switch blockID`),
given the block ID `b` and the bytes `rest` after it:
* 0x17 leave: stamp leave result and leave time on the first player
  with the read ID (when 13 bytes remain);
* 0x1A/0x1B/0x1C start markers, 0x22 checksum, 0x2F forced end, 0x23:
  no state change;
* 0x1E/0x1F time slot: advance the u32 clock, decode the command data
  and append its actions (timestamped with the advanced clock),
  incrementing the matching players' action counts;
* 0x20 chat: append the parsed message timestamped with the clock;
* anything else: no state change (see `stepConsume`). -/
def walkStep (version : Nat) (playerNames : Nat → String)
    (s : WalkState) (b : Nat) (rest : List Nat) : WalkState :=
  if b = 0x17 then
    if 13 ≤ rest.length then
      let leavePlayerID := rest.getD 4 0
      let result := u32At rest 5
      { s with players := updateFirst s.players leavePlayerID (fun p =>
          { p with LeaveResult := some result,
                   LeaveTimeMs := some s.clock }) }
    else s
  else if b = 0x1E ∨ b = 0x1F then
    if 4 ≤ rest.length then
      let numBytes := u16At rest 0
      let timeIncrement := u16At rest 2
      let clock := (s.clock + timeIncrement) % 4294967296
      if 2 < numBytes then
        let cas := parseCommandData (rest.drop 4) (numBytes - 2) version
        { clock := clock
          players := cas.foldl (fun ps ca =>
            updateFirst ps ca.1 (fun p =>
              { p with ActionCount := p.ActionCount + 1 })) s.players
          chat := s.chat
          actions := s.actions
            ++ cas.map (fun ca => { ca.2 with TimestampMs := clock }) }
      else { s with clock := clock }
    else s
  else if b = 0x20 then
    match parseChatMessage rest playerNames with
    | some m => { s with chat := s.chat ++ [{ m with TimestampMs := s.clock }] }
    | none => s
  else s

/-- Fuel-driven event-stream loop of `parseGameData` (parser.go): read
a block ID, apply its state change, skip its consumed bytes, repeat.
Fuel is initialised with the input length (the block ID byte alone
already shrinks the input each iteration). -/
def walkAux (version : Nat) (playerNames : Nat → String) :
    Nat → WalkState → List Nat → WalkState
  | 0, s, _ => s
  | _ + 1, s, [] => s
  | fuel + 1, s, b :: rest =>
    walkAux version playerNames fuel (walkStep version playerNames s b rest)
      (rest.drop (stepConsume b rest))

/-- The event-stream loop (parser.go). -/
def walk (version : Nat) (playerNames : Nat → String)
    (s : WalkState) (l : List Nat) : WalkState :=
  walkAux version playerNames l.length s l

/-- Fuel-driven additional-player loop of `parseGameData` (parser.go):
parse 0x16 records until one fails to parse (the record decoder then
backtracks and the loop stops). -/
def addPlayersAux : Nat → List Nat → List PlayerInfo → (Nat → String) →
    List PlayerInfo × (Nat → String) × List Nat
  | 0, l, ps, nm => (ps, nm, l)
  | _ + 1, [], ps, nm => (ps, nm, [])
  | fuel + 1, l, ps, nm =>
    match parsePlayerRecord l false with
    | (some p, l2) =>
      addPlayersAux fuel l2 (ps ++ [p])
        (fun k => if k = p.ID then p.Name else nm k)
    | (none, _) => (ps, nm, l)

/-- Everything `parseGameData` (parser.go) does before the event
stream: the 4 skipped bytes, the host record, the null-terminated game
name, a separator NUL, the encoded settings string, 12 bytes of player
count / game type / language ID, the additional players, the
(possibly searched-for) game-start record and its slot application.
`rest` is where the event-stream loop starts. -/
structure PreResult where
  gameName : String
  mapName : String
  mapPath : String
  hostName : String
  settings : GameSettings
  players : List PlayerInfo
  names : Nat → String
  rest : List Nat

/-- The host-record part of `parseGameData`'s preamble (parser.go):
on success the host player (flagged as host), the name map seeded with
it, the host name and the remaining input; on failure nothing, and the
cursor is left where it was (the Go code only assigns `offset =
newOffset` when the record parsed). -/
def preHost (l0 : List Nat) :
    List PlayerInfo × (Nat → String) × String × List Nat :=
  match parsePlayerRecord l0 true with
  | (some p, l1) =>
    let p := { p with IsHost := true }
    ([p], fun k => if k = p.ID then p.Name else "", p.Name, l1)
  | (none, _) => ([], fun _ => "", "", l0)

/-- The settings part of the preamble (parser.go): the encoded string
is decoded and, when non-empty, fed to `parseEncodedSettings`;
otherwise the defaults (`GameSettings{Speed: 2}`) stand. -/
def preSettings (enc : List Nat) : GameSettings × String × String :=
  if 0 < enc.length then parseEncodedSettings enc
  else
    ({ Speed := 2, Visibility := 0, Observers := 0, TeamsTogether := false,
       LockTeams := false, FullSharedControl := false, RandomHero := false,
       RandomRaces := false, Referees := false, MapChecksum := [] }, "", "")

/-- The game-start part of the preamble (parser.go): search for a
valid record when the cursor is not already on one, then parse and
apply it when the (possibly moved) cursor holds 0x19. -/
def preGameStart (hdr : ReplayHeader) (ps : List PlayerInfo)
    (l6 : List Nat) : List PlayerInfo × List Nat :=
  let l7 :=
    if l6 ≠ [] ∧ ¬ isValidGameStartRecord l6 then
      match findValidStart l6 with
      | some l' => l'
      | none => l6
    else l6
  if l7.getD 0 256 = 0x19 then
    let gs := parseGameStartRecord l7 hdr.Version
    (applySlotInfoToPlayers ps gs.1 hdr.Version, gs.2.2.2)
  else (ps, l7)

/-- The pre-event-stream phase of `parseGameData` (parser.go). -/
def preambleParse (hdr : ReplayHeader) (data : List Nat) : PreResult :=
  let l0 := if 4 ≤ data.length then data.drop 4 else data
  let afterHost := preHost l0
  let gameNameBytes := afterHost.2.2.2.takeWhile (· ≠ 0)
  let l2 := (afterHost.2.2.2.dropWhile (· ≠ 0)).drop 1
  let l3 := if l2.getD 0 1 = 0 then l2.drop 1 else l2
  let enc := decodeEncodedString l3
  let sm := preSettings enc.1
  let l4 := enc.2
  let l5 := if 12 ≤ l4.length then l4.drop 12 else l4
  let ap := addPlayersAux l5.length l5 afterHost.1 afterHost.2.1
  let psl := preGameStart hdr ap.1 ap.2.2
  { gameName := asString gameNameBytes
    mapName := sm.2.2
    mapPath := sm.2.1
    hostName := afterHost.2.2.1
    settings := sm.1
    players := psl.1
    names := ap.2.1
    rest := psl.2 }

/-- Justification for the APM guard's form in `parseGameData` below:
the source tests `float64(DurationMs) / 60000.0 > 0`, which over exact
arithmetic holds iff the duration itself is positive. -/
theorem durationMinutes_pos (d : Nat) :
    0 < (d : ℚ) / 60000 ↔ 0 < d := by
  constructor
  · intro h
    by_contra hd
    push_neg at hd
    have hd0 : d = 0 := Nat.le_zero.mp hd
    subst hd0
    norm_num at h
  · intro h
    apply div_pos
    · exact_mod_cast h
    · norm_num

/-- `parseGameData` (parser.go).  The Go function's `error` result is
`nil` on every return path (the strict-mode arm for unknown block IDs
only leaves the `switch`), so the embedding returns the replay
directly; `strict` is kept to mirror the signature.  After the event
stream, APM is stamped as `count / (duration / 60000)` when the
duration is positive. -/
def parseGameData (hdr : ReplayHeader) (data : List Nat)
    (strict : Bool) : W3GReplay :=
  let pre := preambleParse hdr data
  let s := walk hdr.Version pre.names
    { clock := 0, players := pre.players, chat := [], actions := [] } pre.rest
  let durationMinutes : ℚ := (hdr.DurationMs : ℚ) / 60000
  -- The source guard is `durationMinutes > 0`; over the exact
  -- rationals this holds iff `DurationMs > 0` (`durationMinutes_pos`
  -- below), and the latter form is used so that the definition
  -- evaluates by kernel reduction.
  let finalPlayers :=
    if 0 < hdr.DurationMs then
      s.players.map (fun p =>
        { p with APM := (p.ActionCount : ℚ) / durationMinutes })
    else s.players
  { Header := hdr
    GameName := pre.gameName
    MapName := pre.mapName
    MapPath := pre.mapPath
    HostName := pre.hostName
    Settings := pre.settings
    Players := finalPlayers
    ChatMessages := s.chat
    Actions := s.actions
    RawDecompressed := data }

/-! ## Header decoder (the `parseHeader` source file) -/

/-- Go `io.ReadFull` on the suffix model: exactly `n` bytes or failure. -/
def readN (l : List Nat) (n : Nat) : Option (List Nat × List Nat) :=
  if n ≤ l.length then some (l.take n, l.drop n) else none

/-- `parseHeader`, suffix form: 48-byte base header (`Truncated` when
short), magic check (`InvalidHeader` on mismatch), variant 0/1 at
offset 0x24 (`InvalidHeader` otherwise), then the 16- or 20-byte
sub-header (`Truncated` when short), decoded per variant. -/
def parseHeaderS (l : List Nat) :
    Except W3GError (ReplayHeader × List Nat) :=
  match readN l 48 with
  | none => .error (.truncated "file too small for header" 48)
  | some (base, l1) =>
    if base.take 28 ≠ magicBytes then
      .error (.invalidHeader ("invalid magic string"))
    else
      let headerVersion := u32At base 0x24
      let subSize : Option Nat :=
        if headerVersion = 0 then some 16
        else if headerVersion = 1 then some 20
        else none
      match subSize with
      | none => .error (.invalidHeader ("unknown header version"))
      | some n =>
        match readN l1 n with
        | none => .error (.truncated "file too small for subheader" 48)
        | some (sub, l2) =>
          let hdr0 : ReplayHeader :=
            { HeaderSize := u32At base 0x1C
              CompressedSize := u32At base 0x20
              HeaderVersion := headerVersion
              DecompressedSize := u32At base 0x28
              NumCompressedBlocks := u32At base 0x2C
              GameIdentifier := "", Version := 0, BuildNumber := 0,
              Flags := 0, DurationMs := 0, CRC32 := 0 }
          let hdr :=
            if headerVersion = 0 then
              { hdr0 with
                Version := u16At sub 0x02
                BuildNumber := u16At sub 0x04
                Flags := u16At sub 0x06
                DurationMs := u32At sub 0x08
                CRC32 := u32At sub 0x0C
                GameIdentifier := "WAR3" }
            else
              { hdr0 with
                GameIdentifier := asString (sub.take 4)
                Version := u32At sub 0x04
                BuildNumber := u16At sub 0x08
                Flags := u16At sub 0x0A
                DurationMs := u32At sub 0x0C
                CRC32 := u32At sub 0x10 }
          .ok (hdr, l2)

/-! ## Block decompressor (decompressor.go)

The per-block inflate calls go to Go's standard `compress/flate` and
`compress/zlib` libraries, which are outside this repository; the
decompressor is therefore parameterised by two abstract inflate
functions (`none` = the library reported an error with no usable
output).  The block framing, truncation handling and fallback logic —
which is what the claims are about — is translated from the source. -/

/-- The block loop of `decompressBlocks` (decompressor.go).  `i` is the
current block index (for the error messages), `remaining` the number of
blocks still to read.  Classic blocks have 8-byte framing headers and
try raw deflate first with a zlib fallback; Reforged blocks have
12-byte headers and use zlib only.  In both framings the first u16 is
the compressed payload length.  A short header or payload read is
`Truncated`; a failed inflate is `Decompression`; offsets carried in
errors are the accumulated output length, as in the source. -/
def decompressLoop (inflateDeflate inflateZlib : List Nat → Option (List Nat))
    (isReforged : Bool) : Nat → Nat → List Nat → List Nat →
    Except W3GError (List Nat)
  | _, 0, _, acc => .ok acc
  | i, remaining + 1, l, acc =>
    let headerSize := if isReforged then 12 else 8
    match readN l headerSize with
    | none => .error (.truncated ("block " ++ toString i ++ " header truncated")
        acc.length)
    | some (blockHeader, l1) =>
      let compressedSize := u16At blockHeader 0
      match readN l1 compressedSize with
      | none => .error (.truncated ("block " ++ toString i
          ++ " data truncated: expected " ++ toString compressedSize
          ++ " bytes") acc.length)
      | some (compressedData, l2) =>
        let decompressed : Option (List Nat) :=
          if isReforged then inflateZlib compressedData
          else
            match inflateDeflate compressedData with
            | some d => some d
            | none => inflateZlib compressedData
        match decompressed with
        | none => .error (.decompression ("block " ++ toString i
            ++ " decompression failed") acc.length)
        | some d =>
          decompressLoop inflateDeflate inflateZlib isReforged
            (i + 1) remaining l2 (acc ++ d)

/-- `decompressBlocks` (decompressor.go): `NumCompressedBlocks` framed
blocks, concatenated into one decompressed payload. -/
def decompressBlocksWith
    (inflateDeflate inflateZlib : List Nat → Option (List Nat))
    (hdr : ReplayHeader) (l : List Nat) : Except W3GError (List Nat) :=
  decompressLoop inflateDeflate inflateZlib hdr.IsReforged 0
    hdr.NumCompressedBlocks l []

/-- `Parser.ParseStream` (parser.go): header, block decompression, game
data.  (`Parser.Parse` additionally seeks the file to
`header.HeaderSize` before the blocks; on well-formed files the two
agree, and the claims are settled against the stream variant.) -/
def parseStreamWith
    (inflateDeflate inflateZlib : List Nat → Option (List Nat))
    (strict : Bool) (l : List Nat) : Except W3GError W3GReplay :=
  match parseHeaderS l with
  | .error e => .error e
  | .ok (hdr, rest) =>
    match decompressBlocksWith inflateDeflate inflateZlib hdr rest with
    | .error e => .error e
    | .ok blob => .ok (parseGameData hdr blob strict)

/-- Total header length of an input: the 48-byte base plus the
sub-header width selected by the variant field at offset 0x24 (the
"header size" of the truncation claim: 64 bytes for variant 0, 68 for
variant 1). -/
def headerTotalLen (l : List Nat) : Nat :=
  48 + (if u32At l 36 = 1 then 20 else 16)

/-! ## The control-byte stuffing encoder

The repository only decodes; the encoder below is the inverse
transform the specification describes, used to state the
round-trip claim. -/

/-- Modelled from the spec: the per-chunk control byte of the stuffing
scheme ("bit *b* (1 ≤ *b* ≤ 7) of the control byte is 0 when the
corresponding data byte was incremented by one during encoding and 1
when it was stored verbatim"; even bytes are the incremented ones).
`parityNum` packs the data bytes' parities into bits 0.. of a number;
the control byte shifts them to bits 1..7 and sets bit 0 so that a
control byte is never 0 (0 is the terminator). -/
def parityNum : List Nat → Nat
  | [] => 0
  | b :: t => b % 2 + 2 * parityNum t

/-- Modelled from the spec: a data byte as stored — incremented when
even, verbatim when odd (so no stored data byte is NUL). -/
def stuffByte (b : Nat) : Nat :=
  if b % 2 = 0 then b + 1 else b

/-- Modelled from the spec: one encoded chunk — a control byte followed
by up to seven stuffed data bytes. -/
def encodeChunk (c : List Nat) : List Nat :=
  (1 + 2 * parityNum c) :: c.map stuffByte

/-- Modelled from the spec: the chunked body of the encoding, seven
data bytes per control byte (fuel-driven like the decoders; the fuel
starts at the string length, which seven-byte steps never exhaust). -/
def encChunksAux : Nat → List Nat → List Nat
  | 0, _ => []
  | _ + 1, [] => []
  | fuel + 1, l => encodeChunk (l.take 7) ++ encChunksAux fuel (l.drop 7)

/-- Modelled from the spec: the chunked body of the encoding. -/
def encChunks (s : List Nat) : List Nat := encChunksAux s.length s

/-- Modelled from the spec: the full encoding — stuffed chunks followed
by the 0 terminator ("followed by a terminator"). -/
def encodeString (s : List Nat) : List Nat :=
  encChunks s ++ [0]

/-! ## Concrete inputs used by the claims -/

/-- A minimal game-data preamble: 4 skipped bytes; a host record
(ID 1, name "A", custom-game tag 0x01 and its skipped byte); an empty
null-terminated game name; the separator NUL; an empty encoded
settings string (a lone 0 control byte); 12 bytes of player count /
game type / language ID.  After it the walker state is: one host
player named "A", clock 0. -/
def preBytes : List Nat :=
  List.replicate 4 0
    ++ [0x00, 1, 65, 0, 0x01, 0]
    ++ [0] ++ [0] ++ [0]
    ++ List.replicate 12 0

/-- A header used by the game-data evaluations: TFT version 26,
one-minute duration. -/
def hdrTFT : ReplayHeader :=
  { HeaderSize := 68, CompressedSize := 0, HeaderVersion := 1,
    DecompressedSize := 0, NumCompressedBlocks := 0,
    GameIdentifier := "W3XP", Version := 26, BuildNumber := 6059,
    Flags := 0x8000, DurationMs := 60000, CRC32 := 0 }

/-- C1: a game-start record with two `Used` slots: slot for player 2 is
a computer (team 0, colour 0, race flags 0x01, handicap 100), slot
for player 1 is the human host (team 1, colour 1). -/
def gameStartBytes : List Nat :=
  [0x19, 25, 0, 2,
   2, 100, 2, 1, 0, 0, 1, 1, 100,
   1, 100, 2, 0, 1, 1, 1, 1, 100,
   0, 0, 0, 0,
   0,
   0]

def c1Data : List Nat := preBytes ++ gameStartBytes

/-- C2: an unmapped event byte 0x21 followed by a normal chat block
(sender 2, flags 0x20, mode 0, body "hi"). -/
def c2Data : List Nat :=
  preBytes ++ [0x21] ++ [0x20, 2, 6, 0, 0x20, 0, 0, 0, 0, 104, 105, 0]

/-- C4: one time slot (increment 100) whose command frame is a single
10-byte 0x1B sync-selection action by player 1. -/
def c4Data : List Nat :=
  preBytes ++
  [0x1F, 15, 0, 100, 0,
   1, 10, 0,
   0x1B, 1] ++ List.replicate 8 0

/-- C3: trivial inflate function standing in for Go's external
`compress/flate` / `compress/zlib` libraries (not part of this
repository) at the claims' concrete inputs: every payload inflates to
the empty byte string. -/
def inflateEmpty : List Nat → Option (List Nat) := fun _ => some []

/-- C3: a complete classic variant-0 replay file: 48-byte base header
(one compressed block), 16-byte sub-header (version 26, duration
60000 ms), one classic block with an 8-byte framing header and a
4-byte compressed payload. -/
def c3Full : List Nat :=
  magicBytes
  ++ [64] ++ List.replicate 3 0
  ++ [76] ++ List.replicate 3 0
  ++ List.replicate 8 0
  ++ [1] ++ List.replicate 3 0
  ++ [0, 0, 26] ++ List.replicate 5 0
  ++ [96, 234] ++ List.replicate 6 0
  ++ [4] ++ List.replicate 7 0
  ++ [9, 9, 9, 9]

/-- C3: the header value `parseHeaderS` extracts from `c3Full`. -/
def c3Hdr : ReplayHeader :=
  { HeaderSize := 64, CompressedSize := 76, HeaderVersion := 0,
    DecompressedSize := 0, NumCompressedBlocks := 1,
    GameIdentifier := "WAR3", Version := 26, BuildNumber := 0,
    Flags := 0, DurationMs := 60000, CRC32 := 0 }

/-- C9: a well-formed 64-byte variant-0 header (used by the witness). -/
def c9Data : List Nat := magicBytes ++ List.replicate 36 0

/-! ## C1 — computer slots and the final player list -/

/-- C1 (code_bug evidence): on a replay whose game-start record holds a
`Used` computer slot for player ID 2, the final player list still
contains only the host "A": the synthesised `Computer 2` player is
appended to a by-value copy of the `players` slice inside
`applySlotInfoToPlayers` and never reaches the caller.  The human slot
of the same record *is* applied (team 1, colour 1, race Human,
handicap 100, status Used), showing the record was parsed. -/
theorem c1_computer_player_lost :
    (parseGameData hdrTFT c1Data false).Players.map (·.Name) = ["A"] ∧
    (parseGameData hdrTFT c1Data false).Players.map
      (fun p => (p.Team, p.Color, p.Race, p.Handicap, p.SlotStatus))
      = [(1, 1, 1, 100, 2)] ∧
    (gameStartBytes.getD 4 0, gameStartBytes.getD 6 0,
      gameStartBytes.getD 7 0) = (2, 2, 1) := by
  refine ⟨by decide, by decide, by decide⟩

/-! ## C2 — unknown event opcodes and strict mode -/

/-- C2 (code_bug evidence): on input holding the unmapped event byte
0x21 followed by a chat block, the strict parse does not abort with an
Unknown error: it skips the byte, still parses the trailing chat
message, and in fact the strict and non-strict parses agree on every
input (the Go `break` in the unknown-opcode arm only leaves the
`switch`, never the walk). -/
theorem c2_strict_mode_never_aborts :
    (parseGameData hdrTFT c2Data true).ChatMessages.map (·.Message)
      = ["hi"] ∧
    (∀ hdr data, parseGameData hdr data true = parseGameData hdr data false) := by
  exact ⟨by decide, fun hdr data => rfl⟩

/-! ## C4 — the action-count exclusion set -/

/-- C4 (code_bug evidence): a lone 0x1B sync-selection action *does*
increment its player's action count (to 1), although the repository's
own FORMAT.md states 0x1B "doesn't count for APM": the count loop in
`parseGameData` increments for every decoded action with no exclusion
set. -/
theorem c4_sync_selection_counted :
    (parseGameData hdrTFT c4Data false).Players.map (·.ActionCount)
      = [1] ∧
    (parseGameData hdrTFT c4Data false).Actions.map (·.ActionType)
      = [0x1B] := by
  exact ⟨by decide, by decide⟩

-- Structural decidable equality for `Except` results.
deriving instance DecidableEq for Except

/-! ## C6 — the stuffing round trip -/

/-- C6 (counterexample): decoding the encoding of the single NUL-free
byte string `[65]` yields `[65, 0]`, not `[65]`: when the string length
is not a multiple of 7 the decoder consumes the terminator inside a
data window and appends the literal 0 to its output
(`result = append(result, 0)` in encoded.go). -/
theorem c6_roundtrip_counterexample :
    (decodeEncodedString (encodeString [65])).1 = [65, 0] ∧
    (decodeEncodedString (encodeString [65])).1 ≠ [65] := by
  exact ⟨by decide, by decide⟩

/-! ## C7 — ability action widths -/

/-- C7 (counterexample): at game version 13 with 20 bytes after the
0x10 opcode, the decoder consumes 13 payload bytes, not the claimed
14: the source's `actionSize` (14 for version ≥ 13) counts the opcode
byte, and the cursor advances by `actionSize - 1` past it. -/
theorem c7_width_counterexample :
    (parseActionBody 13 0x10 (List.replicate 20 7)).2 = 13 ∧
    (parseActionBody 13 0x10 (List.replicate 20 7)).2 ≠ 14 ∧
    (parseActionBody 13 0x13 (List.replicate 40 7)).2 = 37 ∧
    (parseActionBody 13 0x14 (List.replicate 45 7)).2 = 42 := by
  exact ⟨by decide, by decide, by decide, by decide⟩

/-- C7 (amended): the documented widths 14/38/43 (13/37/42 below
version 13) count the opcode byte; past the opcode the decoder
advances by exactly one byte less — 13/37/42 for version ≥ 13 and
12/36/41 otherwise — where 0x10 additionally needs that many bytes to
remain (otherwise it consumes nothing), while 0x13/0x14 advance
unconditionally. -/
theorem c7_amended (version : Nat) (t : List Nat) :
    (13 ≤ version →
      (13 ≤ t.length → (parseActionBody version 0x10 t).2 = 13) ∧
      (parseActionBody version 0x13 t).2 = 37 ∧
      (parseActionBody version 0x14 t).2 = 42) ∧
    (version < 13 →
      (12 ≤ t.length → (parseActionBody version 0x10 t).2 = 12) ∧
      (parseActionBody version 0x13 t).2 = 36 ∧
      (parseActionBody version 0x14 t).2 = 41) := by
  constructor
  · intro hv
    have hv' : ¬ version < 13 := by omega
    refine ⟨fun ht => ?_, ?_, ?_⟩
    · simp [parseActionBody, hv', ht]
    · simp [parseActionBody, hv']
    · simp [parseActionBody, hv']
  · intro hv
    refine ⟨fun ht => ?_, ?_, ?_⟩
    · simp [parseActionBody, hv, ht]
    · simp [parseActionBody, hv]
    · simp [parseActionBody, hv]

/-- C7 (witness for the amended claim at version 13 / version 12 with
enough bytes). -/
theorem c7_amended_witness :
    (parseActionBody 13 0x10 (List.replicate 13 0)).2 = 13 ∧
    (parseActionBody 13 0x13 []).2 = 37 ∧
    (parseActionBody 12 0x10 (List.replicate 12 0)).2 = 12 := by
  refine ⟨((c7_amended 13 (List.replicate 13 0)).1 (by decide)).1 (by decide),
    ((c7_amended 13 []).1 (by decide)).2.1,
    ((c7_amended 12 (List.replicate 12 0)).2 (by decide)).1 (by decide)⟩

/-! ## C9 — header decoder error taxonomy -/

/-- C9 (counterexample): on the empty input the first 28 bytes (there
are none) differ from the magic string, yet the decoder fails with
Truncated, not the claimed InvalidHeader: the 48-byte base read fails
before any magic comparison happens. -/
theorem c9_counterexample :
    ([] : List Nat).take 28 ≠ magicBytes ∧
    parseHeaderS [] = .error (.truncated "file too small for header" 48) := by
  exact ⟨by decide, by decide⟩

/-- `getD` through `take`: indices below the cut read identically. -/
theorem getD_take_of_lt (l : List Nat) {n i : Nat} (h : i < n) :
    (l.take n).getD i 0 = l.getD i 0 := by
  simp [List.getD_eq_getElem?_getD, List.getElem?_take, h]

/-- `u32At` through `take`: a full in-range u32 reads identically. -/
theorem u32At_take (l : List Nat) {n i : Nat} (h : i + 3 < n) :
    u32At (l.take n) i = u32At l i := by
  unfold u32At
  rw [getD_take_of_lt l (by omega), getD_take_of_lt l (by omega),
    getD_take_of_lt l (by omega), getD_take_of_lt l (by omega)]

/-- C9 (amended): with fewer than 48 bytes the header decoder always
fails with Truncated (even when the partial magic already mismatches);
given at least 48 bytes it fails with InvalidHeader exactly when the
28-byte magic differs or the variant at 0x24 is neither 0 nor 1; with
valid magic and variant it fails with Truncated when fewer than 16
(variant 0) / 20 (variant 1) sub-header bytes remain after the base,
and succeeds otherwise. -/
theorem c9_amended (l : List Nat) :
    (l.length < 48 →
      parseHeaderS l = .error (.truncated "file too small for header" 48)) ∧
    (48 ≤ l.length → l.take 28 ≠ magicBytes →
      parseHeaderS l = .error (.invalidHeader "invalid magic string")) ∧
    (48 ≤ l.length → l.take 28 = magicBytes →
      u32At l 36 ≠ 0 → u32At l 36 ≠ 1 →
      parseHeaderS l = .error (.invalidHeader "unknown header version")) ∧
    (48 ≤ l.length → l.take 28 = magicBytes →
      (u32At l 36 = 0 ∨ u32At l 36 = 1) →
      (l.length < 48 + (if u32At l 36 = 1 then 20 else 16) →
        parseHeaderS l = .error (.truncated "file too small for subheader" 48)) ∧
      (48 + (if u32At l 36 = 1 then 20 else 16) ≤ l.length →
        ∃ h rest, parseHeaderS l = .ok (h, rest))) := by
  have htk : ∀ h48 : 48 ≤ l.length, (l.take 48).take 28 = l.take 28 := by
    intro h48
    rw [List.take_take]
    norm_num
  have hu : u32At (l.take 48) 36 = u32At l 36 := u32At_take l (by omega)
  refine ⟨?_, ?_, ?_, ?_⟩
  · intro hlen
    unfold parseHeaderS readN
    rw [if_neg (by omega)]
  · intro h48 hmagic
    unfold parseHeaderS readN
    rw [if_pos (by omega)]
    simp only [htk h48]
    rw [if_pos hmagic]
  · intro h48 hmagic hv0 hv1
    unfold parseHeaderS readN
    rw [if_pos (by omega)]
    simp only [htk h48, hu]
    rw [if_neg (by simp [hmagic]), if_neg hv0, if_neg hv1]
  · intro h48 hmagic hvar
    constructor
    · intro hshort
      unfold parseHeaderS readN
      rw [if_pos (by omega)]
      simp only [htk h48, hu]
      rw [if_neg (by simp [hmagic])]
      rcases hvar with hv | hv
      · rw [if_pos hv]
        simp only [List.length_drop]
        rw [if_neg (by simp [hv] at hshort; omega)]
      · rw [if_neg (by omega), if_pos hv]
        simp only [List.length_drop]
        rw [if_neg (by simp [hv] at hshort; omega)]
    · intro hlong
      unfold parseHeaderS readN
      rw [if_pos (by omega)]
      simp only [htk h48, hu]
      rw [if_neg (by simp [hmagic])]
      rcases hvar with hv | hv
      · rw [if_pos hv]
        simp only [List.length_drop]
        rw [if_pos (by simp [hv] at hlong; omega)]
        exact ⟨_, _, rfl⟩
      · rw [if_neg (by omega), if_pos hv]
        simp only [List.length_drop]
        rw [if_pos (by simp [hv] at hlong; omega)]
        exact ⟨_, _, rfl⟩

/-- C9 (witness for the amended claim): a well-formed 64-byte variant-0
header parses successfully, and chopping it to 60 bytes gives the
sub-header Truncated error. -/
theorem c9_amended_witness :
    (∃ h rest, parseHeaderS c9Data = .ok (h, rest)) ∧
    parseHeaderS (c9Data.take 60)
      = .error (.truncated "file too small for subheader" 48) := by
  constructor
  · exact (((c9_amended c9Data).2.2.2 (by decide) (by decide)
      (Or.inl (by decide))).2 (by decide))
  · exact (((c9_amended (c9Data.take 60)).2.2.2 (by decide) (by decide)
      (Or.inl (by decide))).1 (by decide))

/-! ## C10 — chat blocks with unknown flags -/

/-- C10 (confirmed): a chat block whose flags byte is neither 0x10 nor
0x20 (with its 4 header bytes present and a NUL terminator after
them) is neither rejected nor skipped: the decoder returns a message
with mode 0 and startup-flag false whose body is the null-terminated
run immediately after the flags byte, and the cursor advances over the
4 header bytes, the body and its terminator. -/
theorem c10_unknown_chat_flags (l : List Nat) (playerNames : Nat → String)
    (h4 : 4 ≤ l.length)
    (hf1 : l.getD 3 0 ≠ 0x10) (hf2 : l.getD 3 0 ≠ 0x20)
    (hterm : 0 ∈ l.drop 4) :
    parseChatMessage l playerNames = some
      { TimestampMs := 0
        PlayerID := l.getD 0 0
        PlayerName := if playerNames (l.getD 0 0) = ""
          then "Player " ++ toString (l.getD 0 0)
          else playerNames (l.getD 0 0)
        Message := asString ((l.drop 4).takeWhile (· ≠ 0))
        Mode := 0
        IsStartup := false } ∧
    chatConsumed l = 4 + ((l.drop 4).takeWhile (· ≠ 0)).length + 1 ∧
    ((l.drop 4).takeWhile (· ≠ 0)).length < (l.drop 4).length := by
  refine ⟨?_, ?_, ?_⟩
  · unfold parseChatMessage
    rw [if_neg (by omega)]
    simp only [hf1, hf2, if_false, if_neg hf1, if_neg hf2]
  · have hx : ¬(l.getD 3 0 = 32 ∧ 4 ≤ (l.drop 4).length) := fun hc => hf2 hc.1
    unfold chatConsumed
    rw [if_neg (by omega)]
    simp only []
    rw [if_neg hx]
    simp
  · by_contra hge
    push_neg at hge
    have heq : (l.drop 4).takeWhile (· ≠ 0) = l.drop 4 := by
      apply List.Sublist.eq_of_length_le (List.takeWhile_sublist _)
      exact hge
    have h0 : (0 : Nat) ∈ (l.drop 4).takeWhile (· ≠ 0) := by
      rw [heq]
      exact hterm
    have h1 := List.mem_takeWhile_imp h0
    simp at h1

/-- C10 (witness): flags byte 7, body "h". -/
theorem c10_witness :
    parseChatMessage [5, 9, 9, 7, 104, 0, 42] (fun _ => "") = some
      { TimestampMs := 0, PlayerID := 5, PlayerName := "Player 5",
        Message := asString [104], Mode := 0, IsStartup := false } ∧
    chatConsumed [5, 9, 9, 7, 104, 0, 42] = 6 := by
  have h := c10_unknown_chat_flags [5, 9, 9, 7, 104, 0, 42] (fun _ => "")
    (by decide) (by decide) (by decide) (by decide)
  exact ⟨h.1, h.2.1⟩

/-! ## C3 — truncated inputs -/

/-- C3 (counterexample): `c3Full` is accepted by the non-strict parse
(with a trivial stand-in for the external inflate libraries), but its
74-byte truncation — beyond the 64-byte header — is *not* parsed
without error: the block decompressor surfaces Truncated regardless of
strictness when a declared compressed block is cut. -/
theorem c3_truncation_counterexample :
    parseStreamWith inflateEmpty inflateEmpty false c3Full
      = .ok (parseGameData c3Hdr [] false) ∧
    headerTotalLen c3Full = 64 ∧
    64 ≤ 74 ∧ 74 < c3Full.length ∧
    parseStreamWith inflateEmpty inflateEmpty false (c3Full.take 74)
      = .error (.truncated "block 0 data truncated: expected 4 bytes" 0) := by
  exact ⟨by decide, by decide, by decide, by decide, by decide⟩

/-- One unrolled step of `decompressLoop` (definitional). -/
theorem decompressLoop_succ (iD iZ : List Nat → Option (List Nat))
    (ref : Bool) (i k : Nat) (l acc : List Nat) :
    decompressLoop iD iZ ref i (k + 1) l acc =
      match readN l (if ref then 12 else 8) with
      | none => .error (.truncated ("block " ++ toString i
          ++ " header truncated") acc.length)
      | some (bh, l1) =>
        match readN l1 (u16At bh 0) with
        | none => .error (.truncated ("block " ++ toString i
            ++ " data truncated: expected " ++ toString (u16At bh 0)
            ++ " bytes") acc.length)
        | some (cd, l2) =>
          match (if ref then iZ cd else
            match iD cd with
            | some d => some d
            | none => iZ cd) with
          | none => .error (.decompression ("block " ++ toString i
              ++ " decompression failed") acc.length)
          | some d => decompressLoop iD iZ ref (i + 1) k l2 (acc ++ d) := rfl

/-- Contents of a successful `readN`. -/
theorem readN_eq_some {l bh l1 : List Nat} {k : Nat}
    (h : readN l k = some (bh, l1)) :
    k ≤ l.length ∧ bh = l.take k ∧ l1 = l.drop k := by
  unfold readN at h
  split at h
  · simp only [Option.some.injEq, Prod.mk.injEq] at h
    exact ⟨by assumption, h.1.symm, h.2.symm⟩
  · exact absurd h (by simp)

/-- `readN` through `take`: a read that fits inside the cut is
unchanged except that its own remainder is cut accordingly. -/
theorem readN_take {l : List Nat} {k : Nat} (n : Nat)
    (hk : k ≤ l.length) (hn : k ≤ n) :
    readN (l.take n) k = some (l.take k, (l.drop k).take (n - k)) := by
  unfold readN
  rw [if_pos (by rw [List.length_take]; exact le_inf hn hk)]
  rw [List.take_take, List.drop_take]
  rw [inf_eq_left.mpr hn]

/-- `readN` through `take`: a read that the cut interrupts fails. -/
theorem readN_take_short {l : List Nat} {k : Nat} (n : Nat)
    (hn : n < k) :
    readN (l.take n) k = none := by
  unfold readN
  rw [if_neg]
  rw [List.length_take]
  intro hc
  exact absurd (le_trans hc inf_le_left) (by omega)

/-- Truncating the input of a successful block-decompression run either
leaves the result unchanged (all declared blocks still complete) or
fails with Truncated — never with a different result or another error
kind.  Holds for every inflate pair, block index and accumulator. -/
theorem decompressLoop_take (iD iZ : List Nat → Option (List Nat))
    (ref : Bool) :
    ∀ (k i : Nat) (l acc out : List Nat) (n : Nat),
      decompressLoop iD iZ ref i k l acc = .ok out →
      decompressLoop iD iZ ref i k (l.take n) acc = .ok out ∨
      ∃ m off, decompressLoop iD iZ ref i k (l.take n) acc
        = .error (.truncated m off) := by
  intro k
  induction k with
  | zero =>
    intro i l acc out n h
    left
    simpa [decompressLoop] using h
  | succ k ih =>
    intro i l acc out n h
    rw [decompressLoop_succ] at h
    rcases hr1 : readN l (if ref then 12 else 8) with _ | ⟨bh, l1⟩
    · simp [hr1] at h
    simp only [hr1] at h
    rcases hr2 : readN l1 (u16At bh 0) with _ | ⟨cd, l2⟩
    · simp [hr2] at h
    simp only [hr2] at h
    rcases hd : (if ref then iZ cd else
        match iD cd with
        | some d => some d
        | none => iZ cd) with _ | d
    · simp [hd] at h
    simp only [hd] at h
    obtain ⟨hlen1, hbh, hl1⟩ := readN_eq_some hr1
    obtain ⟨hlen2, hcd, hl2⟩ := readN_eq_some hr2
    by_cases hn1 : (if ref then 12 else 8) ≤ n
    · by_cases hn2 : u16At bh 0 ≤ n - (if ref then 12 else 8)
      · -- both the framing header and the payload survive the cut
        have htk1 := readN_take (l := l) (k := (if ref then 12 else 8)) n hlen1 hn1
        have htk2 : readN ((l.drop (if ref then 12 else 8)).take
            (n - (if ref then 12 else 8))) (u16At bh 0)
            = some (cd, (l1.drop (u16At bh 0)).take
                (n - (if ref then 12 else 8) - u16At bh 0)) := by
          rw [hl1] at hlen2 hcd ⊢
          rw [readN_take _ hlen2 hn2, ← hcd]
        rw [decompressLoop_succ]
        rw [htk1, ← hbh]
        simp only []
        rw [htk2]
        simp only []
        rw [hd]
        simp only []
        have := ih (i + 1) l2 (acc ++ d) out
          (n - (if ref then 12 else 8) - u16At bh 0) h
        rw [hl2] at this
        exact this
      · -- the payload is cut: Truncated
        right
        have hnone : readN ((l.drop (if ref then 12 else 8)).take
            (n - (if ref then 12 else 8))) (u16At bh 0) = none :=
          readN_take_short _ (by omega)
        have hres : decompressLoop iD iZ ref i (k + 1) (l.take n) acc
            = .error (.truncated ("block " ++ toString i
                ++ " data truncated: expected " ++ toString (u16At bh 0)
                ++ " bytes") acc.length) := by
          rw [decompressLoop_succ]
          rw [readN_take (l := l) n hlen1 hn1, ← hbh]
          simp only []
          rw [hnone]
        exact ⟨_, _, hres⟩
    · -- the framing header is cut: Truncated
      right
      have hres : decompressLoop iD iZ ref i (k + 1) (l.take n) acc
          = .error (.truncated ("block " ++ toString i
              ++ " header truncated") acc.length) := by
        rw [decompressLoop_succ]
        rw [readN_take_short _ (by omega)]
      exact ⟨_, _, hres⟩

/-- Truncating the input of a successfully parsed header — at or beyond
the full header length — reparses to the same header, with the
remainder cut accordingly. -/
theorem parseHeaderS_take {l : List Nat} {hdr : ReplayHeader}
    {rest : List Nat} {n : Nat}
    (h : parseHeaderS l = .ok (hdr, rest)) (hn : headerTotalLen l ≤ n) :
    parseHeaderS (l.take n) = .ok (hdr, rest.take (n - headerTotalLen l)) := by
  have hn64 : 64 ≤ n := by
    unfold headerTotalLen at hn
    split at hn <;> omega
  unfold parseHeaderS at h ⊢
  rcases hr1 : readN l 48 with _ | ⟨base, l1⟩
  · rw [hr1] at h
    exact absurd h (by simp)
  rw [hr1] at h
  obtain ⟨hlen1, hbase, hl1⟩ := readN_eq_some hr1
  have htk1 : readN (l.take n) 48 = some (base, (l.drop 48).take (n - 48)) := by
    rw [readN_take n hlen1 (by omega), ← hbase]
  rw [htk1, ← hl1]
  simp only [] at h ⊢
  by_cases hm : base.take 28 ≠ magicBytes
  · rw [if_pos hm] at h
    exact absurd h (by simp)
  rw [if_neg hm] at h ⊢
  have hvar : u32At base 36 = 0 ∨ u32At base 36 = 1 := by
    by_contra hc
    push_neg at hc
    rw [if_neg hc.1, if_neg hc.2] at h
    simp only [] at h
    exact absurd h (by simp)
  have hTL : headerTotalLen l = 48 + (if u32At base 36 = 1 then 20 else 16) := by
    unfold headerTotalLen
    rw [hbase, u32At_take l (by omega)]
  rcases hvar with hv | hv
  · rw [if_pos hv] at h ⊢
    simp only [] at h ⊢
    rcases hr2 : readN l1 16 with _ | ⟨sub, l2⟩
    · rw [hr2] at h
      exact absurd h (by simp)
    rw [hr2] at h
    obtain ⟨hlen2, hsub, hl2⟩ := readN_eq_some hr2
    have hn' : headerTotalLen l = 64 := by rw [hTL, if_neg (by omega)]
    have htk2 : readN (l1.take (n - 48)) 16
        = some (sub, (l1.drop 16).take (n - 64)) := by
      rw [readN_take _ hlen2 (by omega), ← hsub]
      try congr 2
      try omega
    rw [htk2]
    simp only [] at h ⊢
    rw [if_pos hv] at h ⊢
    simp only [Except.ok.injEq, Prod.mk.injEq] at h
    rw [hn']
    simp only [Except.ok.injEq, Prod.mk.injEq]
    exact ⟨h.1, by rw [← h.2, hl2]⟩
  · have hv0 : ¬ u32At base 36 = 0 := by omega
    rw [if_neg hv0, if_pos hv] at h ⊢
    simp only [] at h ⊢
    rcases hr2 : readN l1 20 with _ | ⟨sub, l2⟩
    · rw [hr2] at h
      exact absurd h (by simp)
    rw [hr2] at h
    obtain ⟨hlen2, hsub, hl2⟩ := readN_eq_some hr2
    have hn' : headerTotalLen l = 68 := by rw [hTL, if_pos hv]
    have hn68 : 68 ≤ n := by
      rw [hn'] at hn
      exact hn
    have htk2 : readN (l1.take (n - 48)) 20
        = some (sub, (l1.drop 20).take (n - 68)) := by
      rw [readN_take _ hlen2 (by omega), ← hsub]
      try congr 2
      try omega
    rw [htk2]
    simp only [] at h ⊢
    rw [if_neg hv0] at h ⊢
    simp only [Except.ok.injEq, Prod.mk.injEq] at h
    rw [hn']
    simp only [Except.ok.injEq, Prod.mk.injEq]
    exact ⟨h.1, by rw [← h.2, hl2]⟩

/-- C3 (amended): a non-strict (indeed any) parse of a truncation — at
or beyond the header — of an accepted input is *not* always
error-free: it either returns the identical replay (when every
declared compressed block survives the cut) or fails with Truncated
from the block decompressor, which surfaces short blocks regardless of
strictness; no other outcome is possible.  (The game-data walker
itself never errors on partial content.) -/
theorem c3_amended (iD iZ : List Nat → Option (List Nat)) (strict : Bool)
    (data : List Nat) (r : W3GReplay) (n : Nat)
    (h : parseStreamWith iD iZ strict data = .ok r)
    (hn : headerTotalLen data ≤ n) :
    parseStreamWith iD iZ strict (data.take n) = .ok r ∨
    ∃ m off, parseStreamWith iD iZ strict (data.take n)
      = .error (.truncated m off) := by
  unfold parseStreamWith at h ⊢
  rcases hh : parseHeaderS data with e | ⟨hdr, rest⟩
  · rw [hh] at h
    exact absurd h (by simp)
  rw [hh] at h
  rw [parseHeaderS_take hh hn]
  simp only [] at h ⊢
  unfold decompressBlocksWith at h ⊢
  rcases hd : decompressLoop iD iZ hdr.IsReforged 0 hdr.NumCompressedBlocks
      rest [] with e | blob
  · rw [hd] at h
    exact absurd h (by simp)
  rw [hd] at h
  rcases decompressLoop_take iD iZ hdr.IsReforged hdr.NumCompressedBlocks 0
      rest [] blob (n - headerTotalLen data) hd with hok | ⟨m, off, herr⟩
  · left
    rw [hok]
    exact h
  · right
    exact ⟨m, off, by rw [herr]⟩

/-- C3 (witness for the amended claim): the untruncated input (cut at
its own length) reparses to the same replay. -/
theorem c3_amended_witness :
    parseStreamWith inflateEmpty inflateEmpty false
        (c3Full.take c3Full.length) = .ok (parseGameData c3Hdr [] false) ∨
    ∃ m off, parseStreamWith inflateEmpty inflateEmpty false
        (c3Full.take c3Full.length) = .error (.truncated m off) := by
  exact c3_amended inflateEmpty inflateEmpty false c3Full
    (parseGameData c3Hdr [] false) c3Full.length (by decide) (by decide)

/-! ## C5 — APM -/

/-- A pointwise property survives `updateFirst` when the update
preserves it. -/
theorem updateFirst_pres {P : PlayerInfo → Prop} {f : PlayerInfo → PlayerInfo}
    (hf : ∀ p, P p → P (f p)) :
    ∀ (l : List PlayerInfo) (pid : Nat), (∀ p ∈ l, P p) →
      ∀ p ∈ updateFirst l pid f, P p := by
  intro l
  induction l with
  | nil => intro pid h p hp; cases hp
  | cons q t ih =>
    intro pid h p hp
    unfold updateFirst at hp
    split at hp
    · rcases List.mem_cons.mp hp with hq | ht
      · exact hq ▸ hf q (h q (List.mem_cons_self q t))
      · exact h p (List.mem_cons_of_mem q ht)
    · rcases List.mem_cons.mp hp with hq | ht
      · exact hq ▸ h q (List.mem_cons_self q t)
      · exact ih pid (fun p' hp' => h p' (List.mem_cons_of_mem q hp')) p ht

/-- A pointwise property survives `updateLast` when the update
preserves it. -/
theorem updateLast_pres {P : PlayerInfo → Prop} {f : PlayerInfo → PlayerInfo}
    (hf : ∀ p, P p → P (f p)) (l : List PlayerInfo) (pid : Nat)
    (h : ∀ p ∈ l, P p) : ∀ p ∈ updateLast l pid f, P p := by
  intro p hp
  unfold updateLast at hp
  rw [List.mem_reverse] at hp
  exact updateFirst_pres hf l.reverse pid
    (fun q hq => h q (List.mem_reverse.mp hq)) p hp

/-- `applySlotInfoToPlayers` never touches the APM field. -/
theorem applySlotInfoToPlayers_apm (slots : List SlotRecord)
    (version : Nat) :
    ∀ (players : List PlayerInfo), (∀ p ∈ players, p.APM = 0) →
      ∀ p ∈ applySlotInfoToPlayers players slots version, p.APM = 0 := by
  induction slots with
  | nil => intro players h; exact h
  | cons slot t ih =>
    intro players h
    unfold applySlotInfoToPlayers at *
    simp only [List.foldl_cons]
    apply ih
    split
    · exact h
    · split
      · exact h
      · exact updateLast_pres (fun p hp => by
          repeat' split
          all_goals exact hp) players slot.PlayerID h

/-- Every player record the decoder produces has APM 0 (the Go zero
value). -/
theorem parsePlayerRecord_apm (l : List Nat) (isHost : Bool)
    (p : PlayerInfo) (rest : List Nat)
    (h : parsePlayerRecord l isHost = (some p, rest)) : p.APM = 0 := by
  unfold parsePlayerRecord at h
  simp only [ne_eq] at h
  repeat' split at h
  all_goals
    first
      | (simp only [Prod.mk.injEq, Option.some.injEq] at h
         obtain ⟨h1, _⟩ := h
         rw [← h1])
      | simp at h

/-- The additional-player loop preserves the all-APM-zero invariant. -/
theorem addPlayersAux_apm :
    ∀ (fuel : Nat) (l : List Nat) (ps : List PlayerInfo)
      (nm : Nat → String), (∀ p ∈ ps, p.APM = 0) →
      ∀ p ∈ (addPlayersAux fuel l ps nm).1, p.APM = 0 := by
  intro fuel
  induction fuel with
  | zero => intro l ps nm h; exact h
  | succ fuel ih =>
    intro l ps nm h
    match l with
    | [] => exact h
    | b :: t =>
      unfold addPlayersAux
      rcases hp : parsePlayerRecord (b :: t) false with ⟨op, l2⟩
      match op with
      | some q =>
        simp only []
        apply ih
        intro p hp'
        rcases List.mem_append.mp hp' with hl | hr
        · exact h p hl
        · rw [List.mem_singleton.mp hr]
          exact parsePlayerRecord_apm _ _ _ _ hp
      | none => exact h

/-- The per-action count fold of the time-slot arm preserves the
all-APM-zero invariant. -/
theorem foldl_count_apm (cas : List (Nat × GameAction)) :
    ∀ (ps : List PlayerInfo), (∀ p ∈ ps, p.APM = 0) →
      ∀ p ∈ cas.foldl (fun ps ca => updateFirst ps ca.1
        (fun p => { p with ActionCount := p.ActionCount + 1 })) ps,
        p.APM = 0 := by
  induction cas with
  | nil => intro ps h; exact h
  | cons ca t ih =>
    intro ps h
    simp only [List.foldl_cons]
    refine ih _ ?_
    refine updateFirst_pres ?_ ps _ h
    intro p hp
    exact hp

/-- One event-stream step preserves the all-APM-zero invariant. -/
theorem walkStep_apm (version : Nat) (nm : Nat → String) (s : WalkState)
    (b : Nat) (rest : List Nat) (h : ∀ p ∈ s.players, p.APM = 0) :
    ∀ p ∈ (walkStep version nm s b rest).players, p.APM = 0 := by
  unfold walkStep
  split
  · split
    · simp only []
      refine updateFirst_pres ?_ s.players _ h
      intro p hp
      exact hp
    · exact h
  split
  · split
    · simp only []
      split
      · exact foldl_count_apm _ s.players h
      · exact h
    · exact h
  split
  · split
    · exact h
    · exact h
  · exact h

/-- The whole event-stream walk preserves the all-APM-zero invariant. -/
theorem walkAux_apm (version : Nat) (nm : Nat → String) :
    ∀ (fuel : Nat) (s : WalkState) (l : List Nat),
      (∀ p ∈ s.players, p.APM = 0) →
      ∀ p ∈ (walkAux version nm fuel s l).players, p.APM = 0 := by
  intro fuel
  induction fuel with
  | zero => intro s l h; exact h
  | succ fuel ih =>
    intro s l h
    match l with
    | [] => exact h
    | b :: rest =>
      unfold walkAux
      exact ih _ _ (walkStep_apm version nm s b rest h)

/-- The event-stream walk preserves the all-APM-zero invariant
(stated on an explicitly assembled start state so that applications
match it syntactically). -/
theorem walk_apm (version : Nat) (nm : Nat → String) (clock : Nat)
    (ps : List PlayerInfo) (chat : List ChatMessage)
    (acts : List GameAction) (l : List Nat)
    (h : ∀ p ∈ ps, p.APM = 0) :
    ∀ p ∈ (walk version nm
      { clock := clock, players := ps, chat := chat, actions := acts }
      l).players, p.APM = 0 :=
  walkAux_apm version nm l.length
    { clock := clock, players := ps, chat := chat, actions := acts } l h

/-- All players produced by the host-record phase have APM 0. -/
theorem preHost_apm (l0 : List Nat) :
    ∀ p ∈ (preHost l0).1, p.APM = 0 := by
  unfold preHost
  split
  · rename_i p l1 heq
    intro q hq
    rw [List.mem_singleton.mp hq]
    have := parsePlayerRecord_apm _ _ _ _ heq
    simpa using this
  · intro q hq
    cases hq

/-- The game-start phase preserves the all-APM-zero invariant. -/
theorem preGameStart_apm (hdr : ReplayHeader) (ps : List PlayerInfo)
    (l6 : List Nat) (h : ∀ p ∈ ps, p.APM = 0) :
    ∀ p ∈ (preGameStart hdr ps l6).1, p.APM = 0 := by
  unfold preGameStart
  simp only []
  split <;> split <;>
    first
      | exact applySlotInfoToPlayers_apm _ _ _ h
      | exact h

set_option maxHeartbeats 1000000 in
/-- All players produced by the pre-event-stream phase have APM 0. -/
theorem preambleParse_apm (hdr : ReplayHeader) (data : List Nat) :
    ∀ p ∈ (preambleParse hdr data).players, p.APM = 0 := by
  unfold preambleParse
  simp only []
  refine preGameStart_apm _ _ _ ?_
  refine addPlayersAux_apm _ _ _ _ ?_
  exact preHost_apm _

/-- The player list of a parsed replay, characterised without
unfolding the phases: the walked players, APM-stamped when the
duration is positive. -/
theorem parseGameData_Players (hdr : ReplayHeader) (data : List Nat)
    (strict : Bool) :
    (parseGameData hdr data strict).Players =
      (if 0 < hdr.DurationMs then
        (walk hdr.Version (preambleParse hdr data).names
          { clock := 0, players := (preambleParse hdr data).players,
            chat := [], actions := [] }
          (preambleParse hdr data).rest).players.map
          (fun p => { p with
            APM := (p.ActionCount : ℚ) / ((hdr.DurationMs : ℚ) / 60000) })
      else
        (walk hdr.Version (preambleParse hdr data).names
          { clock := 0, players := (preambleParse hdr data).players,
            chat := [], actions := [] }
          (preambleParse hdr data).rest).players) := rfl

set_option maxHeartbeats 2000000 in
/-- C5 (confirmed): for every parsed replay and player, zero duration
gives APM 0 (the field keeps its zero value), and a nonzero duration
gives APM exactly `count / (duration / 60000)` — in particular within
the claim's 0.05 tolerance. -/
theorem c5_apm (hdr : ReplayHeader) (data : List Nat) (strict : Bool)
    (p : PlayerInfo) (hp : p ∈ (parseGameData hdr data strict).Players) :
    (hdr.DurationMs = 0 → p.APM = 0) ∧
    (hdr.DurationMs ≠ 0 →
      |p.APM - (p.ActionCount : ℚ) / ((hdr.DurationMs : ℚ) / 60000)|
        ≤ 1 / 20) := by
  rw [parseGameData_Players] at hp
  constructor
  · intro h0
    rw [if_neg (by omega)] at hp
    exact walk_apm hdr.Version (preambleParse hdr data).names 0
      (preambleParse hdr data).players [] [] (preambleParse hdr data).rest
      (preambleParse_apm hdr data) p hp
  · intro h0
    rw [if_pos (by omega)] at hp
    rcases List.mem_map.mp hp with ⟨q, _, hq⟩
    rw [← hq]
    simp

/-- The host player of the `preBytes` replay, as parsed. -/
def hostA : PlayerInfo :=
  { ID := 1, Name := "A", Race := 0xFF, Team := 0, Color := 0,
    Handicap := 100, IsHost := true, IsComputer := false,
    IsObserver := false, SlotStatus := 0, RuntimeMs := 0,
    ActionCount := 0, APM := 0, LeaveResult := none, LeaveTimeMs := none }

/-- C5 (witness): the one-host replay `preBytes` under a zero
duration; the parsed host is in the player list and has APM 0. -/
theorem c5_apm_witness :
    hostA ∈ (parseGameData { hdrTFT with DurationMs := 0 } preBytes
      false).Players ∧ hostA.APM = 0 := by
  have hmem : hostA ∈ (parseGameData { hdrTFT with DurationMs := 0 }
      preBytes false).Players := by decide
  exact ⟨hmem,
    (c5_apm { hdrTFT with DurationMs := 0 } preBytes false hostA hmem).1 rfl⟩

/-! ## C6 — the amended round trip -/

/-- Bits of `parityNum`: bit `j` is the parity of byte `j`. -/
theorem parityNum_testBit :
    ∀ (c : List Nat) (j : Nat), j < c.length →
      (parityNum c).testBit j = decide (c.getD j 0 % 2 = 1) := by
  intro c
  induction c with
  | nil => intro j hj; cases hj
  | cons b t ih =>
    intro j hj
    match j with
    | 0 =>
      rw [Nat.testBit_zero, List.getD_cons_zero]
      unfold parityNum
      have hmod : (b % 2 + 2 * parityNum t) % 2 = b % 2 := by omega
      rw [hmod]
    | j + 1 =>
      rw [Nat.testBit_add_one, List.getD_cons_succ]
      unfold parityNum
      have hdiv : (b % 2 + 2 * parityNum t) / 2 = parityNum t := by omega
      rw [hdiv]
      refine ih j ?_
      rw [List.length_cons] at hj
      omega

/-- Bits of a control byte: bit `j + 1` is the parity of byte `j`. -/
theorem ctl_testBit (c : List Nat) (j : Nat) (hj : j < c.length) :
    (1 + 2 * parityNum c).testBit (j + 1) = decide (c.getD j 0 % 2 = 1) := by
  rw [Nat.testBit_add_one]
  have hdiv : (1 + 2 * parityNum c) / 2 = parityNum c := by omega
  rw [hdiv]
  exact parityNum_testBit c j hj

/-- The source's masking test in `testBit` form. -/
theorem and_shift_eq_zero (x k : Nat) :
    (x &&& (1 <<< k) = 0) ↔ x.testBit k = false := by
  rw [Nat.one_shiftLeft, Nat.and_two_pow]
  rcases hb : x.testBit k with _ | _
  · simp
  · have h2 : (2 : Nat) ^ k ≠ 0 := pow_ne_zero k (by decide)
    simp [h2]

/-- Stuffed bytes are never NUL. -/
theorem stuffByte_ne_zero (b : Nat) (hb : b ≠ 0) : stuffByte b ≠ 0 := by
  unfold stuffByte
  split <;> omega

/-- Un-stuffing one byte under its matching control bit. -/
theorem decodeEnc7_unstuff (ctl b k : Nat) (hb : b ≠ 0)
    (hbit : ctl.testBit k = decide (b % 2 = 1)) :
    (if ctl &&& (1 <<< k) = 0 then stuffByte b - 1 else stuffByte b) = b := by
  rcases hpar : b % 2 with _ | _
  · rw [if_pos (by rw [and_shift_eq_zero, hbit]; simp [hpar])]
    unfold stuffByte
    rw [if_pos hpar]
    omega
  · rw [if_neg (by rw [and_shift_eq_zero, hbit]; simp; omega)]
    unfold stuffByte
    rw [if_neg (by omega)]

/-- Decoding a full window of stuffed bytes under the matching control
bits recovers the chunk and moves on. -/
theorem decodeEnc7_chunk :
    ∀ (c : List Nat) (ctl : Nat) (r : List Nat),
      c.length ≤ 7 → 0 ∉ c →
      (∀ j, j < c.length → ctl.testBit (8 - c.length + j)
        = decide (c.getD j 0 % 2 = 1)) →
      decodeEnc7 ctl c.length (c.map stuffByte ++ r) = (c, r, false) := by
  intro c
  induction c with
  | nil => intro ctl r _ _ _; rfl
  | cons b t ih =>
    intro ctl r hle h0 hbits
    have hb0 : b ≠ 0 := fun hb => h0 (hb ▸ List.mem_cons_self b t)
    show decodeEnc7 ctl (t.length + 1) (stuffByte b :: (t.map stuffByte ++ r))
      = (b :: t, r, false)
    unfold decodeEnc7
    rw [if_neg (stuffByte_ne_zero b hb0)]
    have hrec : decodeEnc7 ctl t.length (t.map stuffByte ++ r)
        = (t, r, false) := by
      refine ih ctl r (by rw [List.length_cons] at hle; omega)
        (fun hm => h0 (List.mem_cons_of_mem b hm)) ?_
      intro j hj
      have heq : 8 - t.length + j = 8 - (b :: t).length + (j + 1) := by
        rw [List.length_cons]
        rw [List.length_cons] at hle
        omega
      rw [heq]
      have := hbits (j + 1) (by rw [List.length_cons]; omega)
      rw [List.getD_cons_succ] at this
      exact this
    rw [hrec]
    have hbit0 := hbits 0 (by rw [List.length_cons]; omega)
    rw [List.getD_cons_zero, Nat.add_zero, List.length_cons] at hbit0
    rw [decodeEnc7_unstuff ctl b _ hb0 hbit0]

/-- Decoding a short final window hits the terminator inside the
window: the decoder appends the literal 0 and stops. -/
theorem decodeEnc7_chunk_last :
    ∀ (c : List Nat) (i ctl : Nat) (r : List Nat),
      c.length < i → i ≤ 7 → 0 ∉ c →
      (∀ j, j < c.length → ctl.testBit (8 - i + j)
        = decide (c.getD j 0 % 2 = 1)) →
      decodeEnc7 ctl i (c.map stuffByte ++ 0 :: r) = (c ++ [0], r, true) := by
  intro c
  induction c with
  | nil =>
    intro i ctl r hlen _ _ _
    match i, hlen with
    | i + 1, _ => rfl
  | cons b t ih =>
    intro i ctl r hlen hle h0 hbits
    have hb0 : b ≠ 0 := fun hb => h0 (hb ▸ List.mem_cons_self b t)
    match i, hlen with
    | i + 1, hlen =>
      show decodeEnc7 ctl (i + 1)
          (stuffByte b :: (t.map stuffByte ++ 0 :: r))
        = ((b :: t) ++ [0], r, true)
      unfold decodeEnc7
      rw [if_neg (stuffByte_ne_zero b hb0)]
      have hrec : decodeEnc7 ctl i (t.map stuffByte ++ 0 :: r)
          = (t ++ [0], r, true) := by
        refine ih i ctl r (by rw [List.length_cons] at hlen; omega)
          (by omega) (fun hm => h0 (List.mem_cons_of_mem b hm)) ?_
        intro j hj
        have heq : 8 - i + j = 8 - (i + 1) + (j + 1) := by omega
        rw [heq]
        have := hbits (j + 1) (by rw [List.length_cons]; omega)
        rw [List.getD_cons_succ] at this
        exact this
      rw [hrec]
      have hbit0 := hbits 0 (by rw [List.length_cons]; omega)
      rw [List.getD_cons_zero, Nat.add_zero] at hbit0
      rw [decodeEnc7_unstuff ctl b _ hb0 hbit0]
      rfl

/-- `encChunksAux` ignores its fuel on the empty string. -/
theorem encChunksAux_nil : ∀ fuel, encChunksAux fuel [] = [] := by
  intro fuel; cases fuel <;> rfl

/-- One step of `encChunksAux` on a nonempty string. -/
theorem encChunksAux_cons (f b : Nat) (t : List Nat) :
    encChunksAux (f + 1) (b :: t)
      = encodeChunk ((b :: t).take 7) ++ encChunksAux f ((b :: t).drop 7) := rfl

/-- The fuel of `encChunksAux` is irrelevant once it covers the input. -/
theorem encChunksAux_inv :
    ∀ fuel fuel' (l : List Nat), l.length ≤ fuel → l.length ≤ fuel' →
      encChunksAux fuel l = encChunksAux fuel' l := by
  intro fuel
  induction fuel with
  | zero =>
    intro fuel' l hl _
    have hnil : l = [] := List.length_eq_zero.mp (Nat.le_zero.mp hl)
    subst hnil
    rw [encChunksAux_nil, encChunksAux_nil]
  | succ f ih =>
    intro fuel' l hl hl'
    cases l with
    | nil => rw [encChunksAux_nil, encChunksAux_nil]
    | cons b t =>
      match fuel', hl' with
      | f' + 1, hl' =>
        have h1 : ((b :: t).drop 7).length ≤ f := by
          rw [List.length_drop, List.length_cons]
          rw [List.length_cons] at hl
          omega
        have h2 : ((b :: t).drop 7).length ≤ f' := by
          rw [List.length_drop, List.length_cons]
          rw [List.length_cons] at hl'
          omega
        rw [encChunksAux_cons, encChunksAux_cons, ih f' _ h1 h2]

/-- The inner window never produces more remaining input than it was
given. -/
theorem decodeEnc7_rest_le : ∀ (i ctl : Nat) (l : List Nat),
    (decodeEnc7 ctl i l).2.1.length ≤ l.length := by
  intro i
  induction i with
  | zero => intro ctl l; exact le_refl _
  | succ i ih =>
    intro ctl l
    cases l with
    | nil => exact Nat.le_refl _
    | cons b t =>
      show (decodeEnc7 ctl (i + 1) (b :: t)).2.1.length ≤ (b :: t).length
      unfold decodeEnc7
      split
      · exact Nat.le_succ t.length
      · exact Nat.le_succ_of_le (ih ctl t)

/-- `decodeEncAux` ignores its fuel on empty input. -/
theorem decodeEncAux_nil : ∀ fuel, decodeEncAux fuel [] = ([], []) := by
  intro fuel; cases fuel <;> rfl

/-- One step of `decodeEncAux` on nonempty input. -/
theorem decodeEncAux_cons (f c : Nat) (t : List Nat) :
    decodeEncAux (f + 1) (c :: t)
      = if c = 0 then ([], t)
        else if (decodeEnc7 c 7 t).2.2 then
          ((decodeEnc7 c 7 t).1, (decodeEnc7 c 7 t).2.1)
        else
          ((decodeEnc7 c 7 t).1 ++ (decodeEncAux f (decodeEnc7 c 7 t).2.1).1,
            (decodeEncAux f (decodeEnc7 c 7 t).2.1).2) := rfl

/-- The fuel of `decodeEncAux` is irrelevant once it covers the input. -/
theorem decodeEncAux_inv :
    ∀ fuel fuel' (l : List Nat), l.length ≤ fuel → l.length ≤ fuel' →
      decodeEncAux fuel l = decodeEncAux fuel' l := by
  intro fuel
  induction fuel with
  | zero =>
    intro fuel' l hl _
    have hnil : l = [] := List.length_eq_zero.mp (Nat.le_zero.mp hl)
    subst hnil
    rw [decodeEncAux_nil, decodeEncAux_nil]
  | succ f ih =>
    intro fuel' l hl hl'
    cases l with
    | nil => rw [decodeEncAux_nil, decodeEncAux_nil]
    | cons c t =>
      match fuel', hl' with
      | f' + 1, hl' =>
        rw [decodeEncAux_cons, decodeEncAux_cons]
        by_cases hc : c = 0
        · rw [if_pos hc, if_pos hc]
        · rw [if_neg hc, if_neg hc]
          by_cases hw : (decodeEnc7 c 7 t).2.2 = true
          · rw [if_pos hw, if_pos hw]
          · rw [if_neg hw, if_neg hw]
            have hrest := decodeEnc7_rest_le 7 c t
            have hr : (decodeEnc7 c 7 t).2.1.length ≤ f := by
              rw [List.length_cons] at hl
              omega
            have hr' : (decodeEnc7 c 7 t).2.1.length ≤ f' := by
              rw [List.length_cons] at hl'
              omega
            rw [ih f' _ hr hr']

/-- Peeling one full chunk off the front of the encoding. -/
theorem encodeString_step (s : List Nat) (h7 : 7 ≤ s.length) :
    encodeString s = encodeChunk (s.take 7) ++ encodeString (s.drop 7) := by
  cases s with
  | nil => rw [List.length_nil] at h7; omega
  | cons b t =>
    show encChunksAux (t.length + 1) (b :: t) ++ [0]
      = encodeChunk ((b :: t).take 7)
        ++ (encChunksAux ((b :: t).drop 7).length ((b :: t).drop 7) ++ [0])
    rw [encChunksAux_cons t.length b t]
    rw [encChunksAux_inv t.length ((b :: t).drop 7).length ((b :: t).drop 7)
      (by rw [List.length_drop, List.length_cons]; omega) le_rfl]
    rw [List.append_assoc]

set_option maxHeartbeats 1000000 in
/-- Decoding the encoding of a NUL-free string: exact when the length
is a multiple of seven, one trailing 0 appended otherwise, and the
whole encoding is consumed. -/
theorem decode_encode : ∀ (n : Nat) (s : List Nat), s.length ≤ n → 0 ∉ s →
    decodeEncodedString (encodeString s)
      = ((if s.length % 7 = 0 then s else s ++ [0]), []) := by
  intro n
  induction n with
  | zero =>
    intro s hn _
    have hnil : s = [] := List.length_eq_zero.mp (Nat.le_zero.mp hn)
    subst hnil
    rfl
  | succ n ih =>
    intro s hn h0
    by_cases h7 : 7 ≤ s.length
    · -- a full chunk followed by the rest of the encoding
      have htk : (s.take 7).length = 7 :=
        (List.length_take 7 s).trans (inf_eq_left.mpr h7)
      have h0tk : 0 ∉ s.take 7 := fun hm => h0 (List.take_subset 7 s hm)
      have h0dr : 0 ∉ s.drop 7 := fun hm => h0 (List.drop_subset 7 s hm)
      have hctl : ¬ 1 + 2 * parityNum (s.take 7) = 0 := by omega
      have hb : ∀ j, j < (s.take 7).length →
          (1 + 2 * parityNum (s.take 7)).testBit (8 - (s.take 7).length + j)
            = decide ((s.take 7).getD j 0 % 2 = 1) := by
        intro j hj
        have h1 : 8 - (s.take 7).length + j = j + 1 := by rw [htk]; omega
        rw [h1]
        exact ctl_testBit (s.take 7) j hj
      have hchunk : decodeEnc7 (1 + 2 * parityNum (s.take 7)) 7
          ((s.take 7).map stuffByte ++ encodeString (s.drop 7))
          = (s.take 7, encodeString (s.drop 7), false) := by
        have h := decodeEnc7_chunk (s.take 7) (1 + 2 * parityNum (s.take 7))
          (encodeString (s.drop 7)) (le_of_eq htk) h0tk hb
        rw [htk] at h
        exact h
      rw [encodeString_step s h7]
      have hform : encodeChunk (s.take 7) ++ encodeString (s.drop 7)
          = (1 + 2 * parityNum (s.take 7))
            :: ((s.take 7).map stuffByte ++ encodeString (s.drop 7)) := rfl
      rw [hform]
      unfold decodeEncodedString
      rw [List.length_cons, decodeEncAux_cons, if_neg hctl, hchunk]
      rw [if_neg (fun h => Bool.false_ne_true h)]
      show ((s.take 7)
            ++ (decodeEncAux (((s.take 7).map stuffByte
                  ++ encodeString (s.drop 7)).length)
                (encodeString (s.drop 7))).1,
            (decodeEncAux (((s.take 7).map stuffByte
                  ++ encodeString (s.drop 7)).length)
                (encodeString (s.drop 7))).2)
          = ((if s.length % 7 = 0 then s else s ++ [0]), [])
      rw [decodeEncAux_inv (((s.take 7).map stuffByte
            ++ encodeString (s.drop 7)).length)
          ((encodeString (s.drop 7)).length) (encodeString (s.drop 7))
          (by rw [List.length_append]; omega) le_rfl]
      have hih := ih (s.drop 7) (by rw [List.length_drop]; omega) h0dr
      unfold decodeEncodedString at hih
      rw [hih]
      have hmod : (s.drop 7).length % 7 = s.length % 7 := by
        rw [List.length_drop]; omega
      rw [hmod]
      by_cases hm : s.length % 7 = 0
      · rw [if_pos hm, if_pos hm]
        show ((s.take 7) ++ s.drop 7, ([] : List Nat)) = (s, [])
        rw [List.take_append_drop]
      · rw [if_neg hm, if_neg hm]
        show ((s.take 7) ++ (s.drop 7 ++ [0]), ([] : List Nat)) = (s ++ [0], [])
        rw [← List.append_assoc, List.take_append_drop]
    · -- the final, short chunk: the terminator is met inside the window
      cases s with
      | nil => rfl
      | cons b t =>
        rw [List.length_cons] at hn h7
        have hctl : ¬ 1 + 2 * parityNum (b :: t) = 0 := by omega
        have henc : encodeString (b :: t)
            = (1 + 2 * parityNum (b :: t)) :: ((b :: t).map stuffByte ++ [0]) := by
          show encChunksAux (t.length + 1) (b :: t) ++ [0] = _
          rw [encChunksAux_cons,
            List.take_of_length_le (by rw [List.length_cons]; omega),
            List.drop_eq_nil_of_le (by rw [List.length_cons]; omega),
            encChunksAux_nil, List.append_nil]
          rfl
        have hb : ∀ j, j < (b :: t).length →
            (1 + 2 * parityNum (b :: t)).testBit (8 - 7 + j)
              = decide ((b :: t).getD j 0 % 2 = 1) := by
          intro j hj
          have h1 : 8 - 7 + j = j + 1 := by omega
          rw [h1]
          exact ctl_testBit (b :: t) j hj
        have hlast := decodeEnc7_chunk_last (b :: t) 7
          (1 + 2 * parityNum (b :: t)) []
          (by rw [List.length_cons]; omega) le_rfl h0 hb
        rw [henc]
        unfold decodeEncodedString
        rw [List.length_cons, decodeEncAux_cons, if_neg hctl, hlast,
          if_pos rfl]
        rw [if_neg (by rw [List.length_cons]; omega)]

/-- C6 (amended): decoding the encoding of a NUL-free string gives the
string back exactly when its length is a multiple of seven, and the
string with one spurious trailing 0x00 appended otherwise — the decoder
meets the terminator inside a data window and appends the literal NUL
to its output before returning. -/
theorem c6_roundtrip_amended (s : List Nat) (h : 0 ∉ s) :
    (decodeEncodedString (encodeString s)).1
      = if s.length % 7 = 0 then s else s ++ [0] := by
  rw [decode_encode s.length s le_rfl h]

/-- Witness for C6 (amended): a seven-byte string round-trips exactly;
a one-byte string comes back with the appended NUL. -/
theorem c6_roundtrip_amended_witness :
    (0 ∉ ([65, 66, 67, 68, 69, 70, 71] : List Nat)
      ∧ (decodeEncodedString (encodeString [65, 66, 67, 68, 69, 70, 71])).1
          = [65, 66, 67, 68, 69, 70, 71])
    ∧ (0 ∉ ([65] : List Nat)
      ∧ (decodeEncodedString (encodeString [65])).1 = [65, 0]) :=
  ⟨⟨by decide,
    by rw [c6_roundtrip_amended [65, 66, 67, 68, 69, 70, 71] (by decide)]
       decide⟩,
   ⟨by decide,
    by rw [c6_roundtrip_amended [65] (by decide)]
       decide⟩⟩

/-! ## C8 — clock wrap and timestamp monotonicity -/

/-- The clock increment of one event block (parser.go): a time slot
with its four header bytes present advances the u32 clock by the u16
increment; every other block leaves the clock alone. -/
def stepInc (b : Nat) (rest : List Nat) : Nat :=
  if (b = 0x1E ∨ b = 0x1F) ∧ 4 ≤ rest.length then u16At rest 2 else 0

/-- Sum of all clock increments over the event stream, walked exactly
like `walkAux`. -/
def totalIncsAux : Nat → List Nat → Nat
  | 0, _ => 0
  | _ + 1, [] => 0
  | fuel + 1, b :: rest =>
    stepInc b rest + totalIncsAux fuel (rest.drop (stepConsume b rest))

/-- Sum of all clock increments over the event stream. -/
def totalIncs (l : List Nat) : Nat := totalIncsAux l.length l

/-- One step of `walkAux`. -/
theorem walkAux_succ (v : Nat) (nm : Nat → String) (f : Nat)
    (s : WalkState) (b : Nat) (rest : List Nat) :
    walkAux v nm (f + 1) s (b :: rest)
      = walkAux v nm f (walkStep v nm s b rest)
          (rest.drop (stepConsume b rest)) := rfl

/-- The fuel of `walkAux` is irrelevant once it covers the input. -/
theorem walkAux_inv (v : Nat) (nm : Nat → String) :
    ∀ fuel fuel' (s : WalkState) (l : List Nat),
      l.length ≤ fuel → l.length ≤ fuel' →
      walkAux v nm fuel s l = walkAux v nm fuel' s l := by
  intro fuel
  induction fuel with
  | zero =>
    intro fuel' s l hl _
    have hnil : l = [] := List.length_eq_zero.mp (Nat.le_zero.mp hl)
    subst hnil
    cases fuel' <;> rfl
  | succ f ih =>
    intro fuel' s l hl hl'
    cases l with
    | nil => cases fuel' <;> rfl
    | cons b rest =>
      match fuel', hl' with
      | f' + 1, hl' =>
        rw [walkAux_succ, walkAux_succ]
        have hd : (rest.drop (stepConsume b rest)).length ≤ rest.length := by
          rw [List.length_drop]; omega
        rw [List.length_cons] at hl hl'
        exact ih f' _ _ (by omega) (by omega)

/-- One step of the event-stream loop in `walk` form. -/
theorem walk_cons (v : Nat) (nm : Nat → String) (s : WalkState)
    (b : Nat) (rest : List Nat) :
    walk v nm s (b :: rest)
      = walk v nm (walkStep v nm s b rest)
          (rest.drop (stepConsume b rest)) := by
  show walkAux v nm (b :: rest).length s (b :: rest) = _
  rw [List.length_cons, walkAux_succ]
  refine walkAux_inv v nm rest.length
    ((rest.drop (stepConsume b rest)).length) _ _ ?_ le_rfl
  rw [List.length_drop]
  omega

/-- Each event block either leaves clock and actions alone, or is a
time slot that advances the clock by the u16 increment modulo 2^32 and
appends that frame's actions stamped with the advanced clock. -/
theorem walkStep_cases (v : Nat) (nm : Nat → String) (s : WalkState)
    (b : Nat) (rest : List Nat) :
    ((walkStep v nm s b rest).clock = s.clock
      ∧ (walkStep v nm s b rest).actions = s.actions)
    ∨ ((b = 0x1E ∨ b = 0x1F) ∧ 4 ≤ rest.length
        ∧ (walkStep v nm s b rest).clock
            = (s.clock + u16At rest 2) % 4294967296
        ∧ ((walkStep v nm s b rest).actions = s.actions
            ∨ (walkStep v nm s b rest).actions
                = s.actions
                  ++ (parseCommandData (rest.drop 4) (u16At rest 0 - 2)
                        v).map
                    (fun ca => { ca.2 with
                      TimestampMs := (s.clock + u16At rest 2)
                        % 4294967296 }))) := by
  unfold walkStep
  by_cases h17 : b = 0x17
  · rw [if_pos h17]
    split
    · exact Or.inl ⟨rfl, rfl⟩
    · exact Or.inl ⟨rfl, rfl⟩
  · rw [if_neg h17]
    by_cases hts : b = 0x1E ∨ b = 0x1F
    · rw [if_pos hts]
      by_cases h4 : 4 ≤ rest.length
      · rw [if_pos h4]
        refine Or.inr ⟨hts, h4, ?_⟩
        by_cases hnb : 2 < u16At rest 0
        · rw [if_pos hnb]
          exact ⟨rfl, Or.inr rfl⟩
        · rw [if_neg hnb]
          exact ⟨rfl, Or.inl rfl⟩
      · rw [if_neg h4]
        exact Or.inl ⟨rfl, rfl⟩
    · rw [if_neg hts]
      by_cases h20 : b = 0x20
      · rw [if_pos h20]
        split
        · exact Or.inl ⟨rfl, rfl⟩
        · exact Or.inl ⟨rfl, rfl⟩
      · rw [if_neg h20]
        exact Or.inl ⟨rfl, rfl⟩

/-- Timestamps stamped from a single frame are all equal, hence
pairwise ordered. -/
theorem pairwise_map_const (l : List (Nat × GameAction)) (c : Nat) :
    List.Pairwise (fun x y : Nat => x ≤ y) (l.map fun _ => c) := by
  induction l with
  | nil => exact List.Pairwise.nil
  | cons a t ih =>
    refine List.Pairwise.cons ?_ ih
    intro y hy
    rcases List.mem_map.mp hy with ⟨z, _, hz⟩
    simp [← hz]

/-- The walk invariant behind C8: as long as the total of the clock
increments still to come fits the u32 clock without wrapping, the
accumulated action timestamps stay sorted and bounded by the clock. -/
theorem walkAux_sorted (v : Nat) (nm : Nat → String) :
    ∀ (fuel : Nat) (s : WalkState) (l : List Nat),
      s.clock + totalIncsAux fuel l < 4294967296 →
      List.Pairwise (· ≤ ·) (s.actions.map GameAction.TimestampMs) →
      (∀ a ∈ s.actions, a.TimestampMs ≤ s.clock) →
      List.Pairwise (· ≤ ·)
          ((walkAux v nm fuel s l).actions.map GameAction.TimestampMs)
        ∧ ∀ a ∈ (walkAux v nm fuel s l).actions,
            a.TimestampMs ≤ (walkAux v nm fuel s l).clock := by
  intro fuel
  induction fuel with
  | zero => intro s l _ h1 h2; exact ⟨h1, h2⟩
  | succ f ih =>
    intro s l hinc h1 h2
    cases l with
    | nil => exact ⟨h1, h2⟩
    | cons b rest =>
      have htot : totalIncsAux (f + 1) (b :: rest)
          = stepInc b rest
            + totalIncsAux f (rest.drop (stepConsume b rest)) := rfl
      rw [htot] at hinc
      rcases walkStep_cases v nm s b rest with
        ⟨hck, hacts⟩ | ⟨hts, h4, hck, hacts⟩
      · refine ih (walkStep v nm s b rest)
          (rest.drop (stepConsume b rest)) ?_ ?_ ?_
        · rw [hck]; omega
        · rw [hacts]; exact h1
        · rw [hacts, hck]; exact h2
      · have hstepinc : stepInc b rest = u16At rest 2 :=
          if_pos ⟨hts, h4⟩
        rw [hstepinc] at hinc
        have hnw : s.clock + u16At rest 2 < 4294967296 := by omega
        have hckv : (walkStep v nm s b rest).clock
            = s.clock + u16At rest 2 := by
          rw [hck, Nat.mod_eq_of_lt hnw]
        refine ih (walkStep v nm s b rest)
          (rest.drop (stepConsume b rest)) ?_ ?_ ?_
        · rw [hckv]; omega
        · rcases hacts with hacts | hacts
          · rw [hacts]; exact h1
          · rw [hacts, List.map_append]
            refine (List.pairwise_append).mpr ⟨h1, ?_, ?_⟩
            · rw [List.map_map]
              exact pairwise_map_const _ _
            · intro x hx y hy
              rcases List.mem_map.mp hx with ⟨a, ha, hax⟩
              rcases List.mem_map.mp hy with ⟨q, hq, hqy⟩
              rcases List.mem_map.mp hq with ⟨ca, _, hca⟩
              have hyv : y = (s.clock + u16At rest 2) % 4294967296 := by
                rw [← hqy, ← hca]
              rw [hyv, Nat.mod_eq_of_lt hnw, ← hax]
              exact le_trans (h2 a ha) (Nat.le_add_right _ _)
        · intro a ha
          rw [hckv]
          rcases hacts with hacts | hacts
          · rw [hacts] at ha
            exact le_trans (h2 a ha) (Nat.le_add_right _ _)
          · rw [hacts] at ha
            rcases List.mem_append.mp ha with ha | ha
            · exact le_trans (h2 a ha) (Nat.le_add_right _ _)
            · rcases List.mem_map.mp ha with ⟨ca, _, hca⟩
              rw [← hca]
              show (s.clock + u16At rest 2) % 4294967296
                ≤ s.clock + u16At rest 2
              exact Nat.mod_le _ _

set_option maxHeartbeats 4000000 in
/-- The action list of a parsed replay, characterised without
unfolding the phases: exactly the walked actions (the APM stamping
touches only the players). -/
theorem parseGameData_Actions (hdr : ReplayHeader) (data : List Nat)
    (strict : Bool) :
    (parseGameData hdr data strict).Actions =
      (walk hdr.Version (preambleParse hdr data).names
        { clock := 0, players := (preambleParse hdr data).players,
          chat := [], actions := [] }
        (preambleParse hdr data).rest).actions := by
  unfold parseGameData
  simp only []

set_option maxHeartbeats 1000000 in
/-- C8 (amended): the parsed action list's timestamps are monotonically
non-decreasing whenever the event stream's clock increments sum to less
than 2^32; with a larger total the u32 clock wraps and a later action
receives a smaller timestamp. -/
theorem c8_amended (hdr : ReplayHeader) (data : List Nat) (strict : Bool)
    (h : totalIncs (preambleParse hdr data).rest < 4294967296) :
    List.Pairwise (· ≤ ·)
      ((parseGameData hdr data strict).Actions.map GameAction.TimestampMs) := by
  rw [parseGameData_Actions]
  unfold totalIncs at h
  refine (walkAux_sorted hdr.Version (preambleParse hdr data).names
    (preambleParse hdr data).rest.length
    { clock := 0, players := (preambleParse hdr data).players,
      chat := [], actions := [] }
    (preambleParse hdr data).rest ?_ List.Pairwise.nil ?_).1
  · show 0 + totalIncsAux (preambleParse hdr data).rest.length
      (preambleParse hdr data).rest < 4294967296
    omega
  · intro a ha
    exact absurd ha (List.not_mem_nil a)

/-- A bare time-slot event block: u16 block length 2, u16 increment
65535, no command data. -/
def blockP : List Nat := [0x1F, 2, 0, 255, 255]

/-- A time-slot event block with increment 65535 and one command
frame: player 1, frame length 1, the one-byte escape action 0x61. -/
def blockA : List Nat := [0x1F, 6, 0, 255, 255, 1, 1, 0, 0x61]

/-- `k` bare time slots followed by two action-carrying time slots. -/
def ceBlocks : Nat → List Nat
  | 0 => blockA ++ blockA
  | k + 1 => blockP ++ ceBlocks k

/-- The C8 counterexample input: the `preBytes` preamble followed by
65536 bare 65535 ms time slots (advancing the u32 clock to
4294901760) and two action time slots — the second action's timestamp
wraps. -/
def ceData : List Nat := preBytes ++ ceBlocks 65536

/-- The action decoded from opcode 0x61 in a `blockA` frame, before
its timestamp is stamped. -/
def escAction : GameAction :=
  { TimestampMs := 0, PlayerID := 1, ActionType := 0x61,
    ActionName := "escape", Payload := [0x61] }

/-- Walking one bare time slot advances only the clock. -/
theorem walk_blockP (v : Nat) (nm : Nat → String) (s : WalkState)
    (t : List Nat) :
    walk v nm s (blockP ++ t)
      = walk v nm { s with clock := (s.clock + 65535) % 4294967296 } t := by
  rw [show blockP ++ t = 31 :: (2 :: 0 :: 255 :: 255 :: t) from rfl,
    walk_cons]
  have h4 : (4 : Nat) ≤ (2 :: 0 :: 255 :: 255 :: t).length := by
    show (4 : Nat) ≤ t.length + 4
    omega
  have hval : u16At (2 :: 0 :: 255 :: 255 :: t) 2 = 65535 := by
    show (255 : Nat) + 256 * 255 = 65535
    norm_num
  have hstep : walkStep v nm s 31 (2 :: 0 :: 255 :: 255 :: t)
      = { s with clock :=
            (s.clock + u16At (2 :: 0 :: 255 :: 255 :: t) 2)
              % 4294967296 } := by
    unfold walkStep
    rw [if_pos h4]
    rfl
  have hcons : stepConsume 31 (2 :: 0 :: 255 :: 255 :: t) = 4 := by
    unfold stepConsume
    rw [if_pos h4]
    rfl
  rw [hstep, hval, hcons]
  rfl

/-- Walking one action time slot advances the clock and appends the
escape action stamped with the advanced clock. -/
theorem walk_blockA (v : Nat) (nm : Nat → String) (s : WalkState)
    (t : List Nat) :
    walk v nm s (blockA ++ t)
      = walk v nm
          { clock := (s.clock + 65535) % 4294967296,
            players := updateFirst s.players 1
              (fun p => { p with ActionCount := p.ActionCount + 1 }),
            chat := s.chat,
            actions := s.actions
              ++ [{ escAction with
                    TimestampMs := (s.clock + 65535) % 4294967296 }] } t := by
  rw [show blockA ++ t
      = 31 :: (6 :: 0 :: 255 :: 255 :: 1 :: 1 :: 0 :: 97 :: t) from rfl,
    walk_cons]
  have h4 : (4 : Nat)
      ≤ (6 :: 0 :: 255 :: 255 :: 1 :: 1 :: 0 :: 97 :: t).length := by
    show (4 : Nat) ≤ t.length + 8
    omega
  have hval : u16At (6 :: 0 :: 255 :: 255 :: 1 :: 1 :: 0 :: 97 :: t) 2
      = 65535 := by
    show (255 : Nat) + 256 * 255 = 65535
    norm_num
  have hstep : walkStep v nm s 31
        (6 :: 0 :: 255 :: 255 :: 1 :: 1 :: 0 :: 97 :: t)
      = { clock :=
            (s.clock + u16At (6 :: 0 :: 255 :: 255 :: 1 :: 1 :: 0 :: 97 :: t) 2)
              % 4294967296,
          players := updateFirst s.players 1
            (fun p => { p with ActionCount := p.ActionCount + 1 }),
          chat := s.chat,
          actions := s.actions
            ++ [{ escAction with
                  TimestampMs :=
                    (s.clock
                      + u16At (6 :: 0 :: 255 :: 255 :: 1 :: 1 :: 0 :: 97 :: t) 2)
                      % 4294967296 }] } := by
    unfold walkStep
    rw [if_pos h4]
    rfl
  have hcons : stepConsume 31
      (6 :: 0 :: 255 :: 255 :: 1 :: 1 :: 0 :: 97 :: t) = 8 := by
    unfold stepConsume
    rw [if_pos h4]
    rfl
  rw [hstep, hval, hcons]
  rfl

/-- Walking the `k` bare time slots of `ceBlocks k` advances the clock
by `k * 65535` modulo 2^32. -/
theorem walk_ceBlocks (v : Nat) (nm : Nat → String) :
    ∀ (k : Nat) (s : WalkState), s.clock < 4294967296 →
      walk v nm s (ceBlocks k)
        = walk v nm
            { s with clock := (s.clock + k * 65535) % 4294967296 }
            (blockA ++ blockA) := by
  intro k
  induction k with
  | zero =>
    intro s hs
    show walk v nm s (blockA ++ blockA) = _
    rw [show (s.clock + 0 * 65535) % 4294967296 = s.clock from by omega]
  | succ k ih =>
    intro s hs
    show walk v nm s (blockP ++ ceBlocks k) = _
    rw [walk_blockP, ih _ (Nat.mod_lt _ (by omega))]
    show walk v nm
        { s with clock :=
            ((s.clock + 65535) % 4294967296 + k * 65535) % 4294967296 }
        (blockA ++ blockA) = _
    rw [show ((s.clock + 65535) % 4294967296 + k * 65535) % 4294967296
        = (s.clock + (k + 1) * 65535) % 4294967296 from by omega]

/-- A candidate whose first byte is not 0x19 never validates. -/
theorem isValid_head_ne (b : Nat) (t : List Nat) (hb : b ≠ 0x19) :
    isValidGameStartRecord (b :: t) = false := by
  unfold isValidGameStartRecord
  split
  · rfl
  · rw [if_pos (show (b :: t).getD 0 0 ≠ 0x19 from by
      rw [List.getD_cons_zero]; exact hb)]

/-- The game-start search finds nothing when no 0x19 byte occurs. -/
theorem findValidStart_none : ∀ (l : List Nat), 25 ∉ l →
    findValidStart l = none := by
  intro l
  induction l with
  | nil => intro _; rfl
  | cons b t ih =>
    intro h
    have hb : b ≠ 25 := fun he => h (he ▸ List.mem_cons_self b t)
    unfold findValidStart
    split
    · rw [isValid_head_ne b t hb]
      rfl
    · rw [if_neg (fun hc => hb hc.1)]
      exact ih (fun hm => h (List.mem_cons_of_mem b hm))

/-- No block of the counterexample stream carries the byte 0x19. -/
theorem mem25_ceBlocks : ∀ k, 25 ∉ ceBlocks k := by
  intro k
  induction k with
  | zero => decide
  | succ k ih =>
    intro h
    rcases List.mem_append.mp h with h | h
    · revert h; decide
    · exact ih h

/-- When the cursor is not on a valid game-start record and the search
finds none, the game-start phase leaves players and cursor alone. -/
theorem preGameStart_rest (hdr : ReplayHeader) (ps : List PlayerInfo)
    (l6 : List Nat) (hne : l6 ≠ [])
    (hnv : ¬ isValidGameStartRecord l6 = true)
    (hfind : findValidStart l6 = none)
    (h19 : ¬ l6.getD 0 256 = 0x19) :
    preGameStart hdr ps l6 = (ps, l6) := by
  unfold preGameStart
  simp only []
  have hcond : l6 ≠ [] ∧ ¬ isValidGameStartRecord l6 = true := ⟨hne, hnv⟩
  rw [if_pos hcond, hfind]
  rw [if_neg h19]

set_option maxHeartbeats 4000000 in
/-- The `preBytes` preamble consumes exactly its own bytes when the
following event stream starts with a byte that is neither a player
record nor anywhere contains a game-start marker: the walker starts on
the appended stream. -/
theorem preamble_rest (hdr : ReplayHeader) (X : List Nat)
    (hfind : findValidStart (31 :: X) = none) :
    (preambleParse hdr (preBytes ++ 31 :: X)).rest = 31 :: X := by
  have hnv : ¬ isValidGameStartRecord (31 :: X) = true := by
    rw [isValid_head_ne 31 X (by omega)]
    exact Bool.false_ne_true
  have h19 : ¬ (31 :: X).getD 0 256 = 0x19 := by
    rw [List.getD_cons_zero]
    omega
  show (preGameStart hdr
      [{ ID := 1, Name := asString [65], Race := 0xFF, Team := 0,
         Color := 0, Handicap := 100, IsHost := true, IsComputer := false,
         IsObserver := false, SlotStatus := 0, RuntimeMs := 0,
         ActionCount := 0, APM := 0, LeaveResult := none,
         LeaveTimeMs := none }]
      (31 :: X)).2 = 31 :: X
  rw [preGameStart_rest hdr _ _ (by simp) hnv hfind h19]

/-- C8 (counterexample): after 65536 time slots of 65535 ms the u32
clock sits at 4294901760; the next action is stamped 4294967295 and
the one after wraps to 65534 — the parsed action list's timestamps are
not monotonically non-decreasing. -/
theorem c8_counterexample :
    ¬ List.Pairwise (· ≤ ·)
      ((parseGameData hdrTFT ceData false).Actions.map
        GameAction.TimestampMs) := by
  have h25 : (25 : Nat) ∉ 31 :: (2 :: 0 :: 255 :: 255 :: ceBlocks 65535) := by
    intro h
    simp only [List.mem_cons] at h
    rcases h with h | h | h | h | h | h
    · omega
    · omega
    · omega
    · omega
    · omega
    · exact mem25_ceBlocks 65535 h
  have hfind := findValidStart_none _ h25
  have hrest : (preambleParse hdrTFT ceData).rest
      = 31 :: (2 :: 0 :: 255 :: 255 :: ceBlocks 65535) := by
    rw [show ceData
      = preBytes ++ 31 :: (2 :: 0 :: 255 :: 255 :: ceBlocks 65535) from rfl]
    exact preamble_rest hdrTFT _ hfind
  rw [parseGameData_Actions, hrest]
  rw [show (31 : Nat) :: (2 :: 0 :: 255 :: 255 :: ceBlocks 65535)
    = ceBlocks 65536 from rfl]
  rw [walk_ceBlocks hdrTFT.Version (preambleParse hdrTFT ceData).names 65536
    { clock := 0, players := (preambleParse hdrTFT ceData).players,
      chat := [], actions := [] } (by decide)]
  rw [walk_blockA]
  rw [show blockA = blockA ++ ([] : List Nat) from (List.append_nil blockA).symm]
  rw [walk_blockA]
  have hnil : ∀ s : WalkState,
      walk hdrTFT.Version (preambleParse hdrTFT ceData).names s
        ([] : List Nat) = s := fun _ => rfl
  rw [hnil]
  intro hp
  simp only [List.map_append, List.map_cons, List.map_nil, List.nil_append,
    List.append_nil, List.pairwise_append, List.pairwise_cons,
    List.mem_cons, List.mem_singleton] at hp
  have h := hp.2.2 _ (Or.inl rfl) _ (Or.inl rfl)
  omega

/-- Witness for C8 (amended): the two-action stream `ceBlocks 0` after
the `preBytes` preamble sums its increments to 131070, far below 2^32,
and its parsed timestamps are sorted. -/
theorem c8_amended_witness :
    totalIncs (preambleParse hdrTFT (preBytes ++ ceBlocks 0)).rest
        < 4294967296
      ∧ List.Pairwise (· ≤ ·)
          ((parseGameData hdrTFT (preBytes ++ ceBlocks 0) false).Actions.map
            GameAction.TimestampMs) :=
  ⟨by decide, c8_amended hdrTFT (preBytes ++ ceBlocks 0) false (by decide)⟩
